import Mathlib

/-!
Verification development for the obsidian-send-to-canvas plugin.

The plugin's core logic is shallowly embedded here:
* `findTextPosition` and its five matching passes (BlockReferenceUtils.findTextPosition),
* `createBlockReference` (BlockReferenceUtils.createBlockReference),
* `addBlockIdToSelection`, `appendTextToOpenTask`, `calculateNewNodePosition`,
  `addToCanvas` and the `sendSelectionToCanvas` data flow (Main in src/main.ts),
* a JSON value model with a parser and printer standing for the host's
  JSON.parse / JSON.stringify over the canvas file.

Strings are modelled as `List Char` (JavaScript strings), JSON numbers as `Rat`
(idealizing IEEE doubles by exact rationals; every number the plugin writes is
an integer).  JavaScript's `\s` / `trim` whitespace classes are modelled by the
ASCII whitespace characters, which are the only ones the plugin's own data
contains.
-/

set_option maxRecDepth 8000

/-- Shorthand turning a Lean string literal into the `List Char` representation
used throughout the embedding. -/
def strL (s : String) : List Char := s.data

/-- The newline character used by `String.split("\n")` in the source. -/
def nlChar : Char := Char.ofNat 10

/-- JavaScript whitespace (`\s`, and the class trimmed by `String.trim`),
restricted to ASCII: space, tab, newline, vertical tab, form feed, carriage
return. -/
def jsWS (c : Char) : Bool :=
  c = ' ' || c = Char.ofNat 9 || c = Char.ofNat 10 || c = Char.ofNat 11 ||
  c = Char.ofNat 12 || c = Char.ofNat 13

/-- Characters admitted by the block-id regular expression class
`[a-zA-Z0-9-]` used in `line.match(/\^([a-zA-Z0-9-]+)$/)`. -/
def anchorChar (c : Char) : Bool :=
  (('a' ≤ c && c ≤ 'z') || ('A' ≤ c && c ≤ 'Z') || ('0' ≤ c && c ≤ '9') || c = '-')

/-- Boolean test that `p` is a leading segment of `l`
(JavaScript `l.startsWith(p)`). -/
def leadsWith : List Char → List Char → Bool
  | [], _ => true
  | _ :: _, [] => false
  | p :: ps, c :: cs => p = c && leadsWith ps cs

/-- JavaScript `haystack.indexOf(needle)`: the first index at which `needle`
occurs in `haystack`, `none` standing for `-1`.  As in JavaScript, the empty
needle is found at index `0`. -/
def idxOf (needle : List Char) : List Char → Option Nat
  | [] => if needle = [] then some 0 else none
  | c :: cs =>
    if leadsWith needle (c :: cs) then some 0
    else (idxOf needle cs).map (· + 1)

/-- JavaScript `haystack.includes(needle)`. -/
def containsSub (needle haystack : List Char) : Bool :=
  (idxOf needle haystack).isSome

/-- JavaScript `trimStart`: drop leading whitespace. -/
def trimStartL (l : List Char) : List Char := l.dropWhile jsWS

/-- JavaScript `trimEnd`: drop trailing whitespace. -/
def trimEndL (l : List Char) : List Char := (l.reverse.dropWhile jsWS).reverse

/-- JavaScript `trim`: drop whitespace from both ends. -/
def trimL (l : List Char) : List Char := trimStartL (trimEndL l)

/-- `String.split("\n")`: split into lines at newline characters.  Always
returns at least one (possibly empty) piece. -/
def splitNl : List Char → List (List Char)
  | [] => [[]]
  | c :: cs =>
    match splitNl cs with
    | [] => [[c]]
    | h :: t => if c = nlChar then [] :: h :: t else (c :: h) :: t

/-- `Array.join("\n")`: the inverse of `splitNl` on newline-free pieces. -/
def joinNl : List (List Char) → List Char
  | [] => []
  | [l] => l
  | l :: ls => l ++ nlChar :: joinNl ls

/-- State-passing helper for `collapseWs`; the flag records whether the
previous character was whitespace (so a continuing run emits nothing). -/
def collapseAux : Bool → List Char → List Char
  | _, [] => []
  | prevWs, c :: cs =>
    if jsWS c then
      if prevWs then collapseAux true cs else ' ' :: collapseAux true cs
    else c :: collapseAux false cs

/-- Helper for `replace(/\s+/g, " ")`: collapse each maximal run of
whitespace characters to a single space. -/
def collapseWs (l : List Char) : List Char := collapseAux false l

/-- The normalization applied in the last pass of `findTextPosition`:
`s.replace(/\s+/g, " ").trim()`. -/
def normL (l : List Char) : List Char := trimL (collapseWs l)

/-- The open-task marker literal `"- [ ]"` from the source. -/
def taskMarker : List Char := strL "- [ ]"

/-- Offset computation `line.indexOf(t.charAt(0))` used by the fallback
passes; `charAt(0)` of an empty string is the empty string, which `indexOf`
finds at `0`. -/
def charAtIdx (t line : List Char) : Nat :=
  match t with
  | [] => 0
  | c :: _ => (idxOf [c] line).getD 0

/-- The `for (let i = 0; i < lines.length; i++) ... return {line: i, offset}`
loop shape shared by every pass of `findTextPosition` (and by the trimmed
fallback in `addBlockIdToSelection`): `p` maps a line to the offset to report
when the line matches; the first matching line wins. -/
def scanGen (p : List Char → Option Nat) : List (List Char) → Option (Nat × Nat)
  | [] => none
  | l :: ls =>
    match p l with
    | some k => some (0, k)
    | none => (scanGen p ls).map (fun q => (q.1 + 1, q.2))

/-- Pass 1/2 of `findTextPosition`: scan the lines in order for the first one
containing `t` as a substring, returning the line index and the match offset. -/
def scanIdx (t : List Char) (lines : List (List Char)) : Option (Nat × Nat) :=
  scanGen (fun l => idxOf t l) lines

/-- Matching condition of pass 3: the trimmed line starts with the open-task
marker and contains the remaining task text; the reported offset is
`lines[i].indexOf("- [ ]")`. -/
def taskHit (tc l : List Char) : Option Nat :=
  if leadsWith taskMarker (trimL l) && containsSub tc (trimL l) then
    some ((idxOf taskMarker l).getD 0)
  else none

/-- Pass 3 of `findTextPosition`. -/
def scanTask (tc : List Char) (lines : List (List Char)) : Option (Nat × Nat) :=
  scanGen (taskHit tc) lines

/-- Matching condition of pass 4 (and of the trimmed-equality fallback in
`addBlockIdToSelection`): the trimmed line equals `t`; the reported offset is
`lines[i].indexOf(t.charAt(0))`. -/
def trimEqHit (t l : List Char) : Option Nat :=
  if trimL l = t then some (charAtIdx t l) else none

/-- Pass 4 of `findTextPosition`. -/
def scanTrimEq (t : List Char) (lines : List (List Char)) : Option (Nat × Nat) :=
  scanGen (trimEqHit t) lines

/-- Matching condition of pass 5: the whitespace-normalized line equals `nt`,
reported at offset `0`. -/
def normHit (nt l : List Char) : Option Nat :=
  if normL l = nt then some 0 else none

/-- Pass 5 of `findTextPosition`. -/
def scanNorm (nt : List Char) (lines : List (List Char)) : Option (Nat × Nat) :=
  scanGen (normHit nt) lines

/-- BlockReferenceUtils.findTextPosition: locate `text` inside `content` by a
cascade of five passes — exact substring, trimmed substring, open-task
heuristic, first line of a multi-line selection by trimmed equality, and
whitespace-normalized equality — returning the position from the first pass
that matches and `none` if all fail. -/
def findTextPosition (content text : List Char) : Option (Nat × Nat) :=
  let lines := splitNl content
  let searchText := trimL text
  match scanIdx text lines with
  | some p => some p
  | none =>
  match scanIdx searchText lines with
  | some p => some p
  | none =>
  match (if leadsWith taskMarker searchText then
           scanTask (trimL (searchText.drop taskMarker.length)) lines
         else none) with
  | some p => some p
  | none =>
  match (if containsSub [nlChar] text then
           scanTrimEq (trimL ((splitNl text).getD 0 [])) lines
         else none) with
  | some p => some p
  | none => scanNorm (normL searchText) lines

/-- Result of `line.match(/\^([a-zA-Z0-9-]+)$/)`: the pattern matches when the
line ends in a caret followed by one or more characters of `[a-zA-Z0-9-]`; the
captured group is the maximal trailing run of such characters, which must be
directly preceded by a caret. -/
def lastAnchorId (l : List Char) : Option (List Char) :=
  let run := l.reverse.takeWhile anchorChar
  if run.isEmpty then none
  else
    match l.reverse.drop run.length with
    | c :: _ => if c = '^' then some run.reverse else none
    | [] => none

/-- The plugin settings consumed by the embedded core (src/settings.ts,
interface SendToCanvasSettings).  String-valued fields are `List Char`; node
dimensions are rationals standing for JavaScript numbers. -/
structure SendToCanvasSettings where
  rememberLastCanvas : Bool
  lastCanvasPath : List Char
  useCustomBlockIdFormat : Bool
  blockIdDateFormat : List Char
  appendTimestampToLinks : Bool
  appendTimestampFormat : List Char
  appendTextToOpenTasks : Bool
  openTaskAppendText : List Char
  statusBarMaxFilenameLength : Nat
  linkNodeWidth : Rat
  linkNodeHeight : Rat
  contentNodeWidth : Rat
  contentNodeHeight : Rat
  fileNodeWidth : Rat
  fileNodeHeight : Rat

/-- DEFAULT_SETTINGS from src/settings.ts. -/
def DEFAULT_SETTINGS : SendToCanvasSettings where
  rememberLastCanvas := true
  lastCanvasPath := []
  useCustomBlockIdFormat := false
  blockIdDateFormat := strL "YYYY-MM-DDTHH-mm-ss"
  appendTimestampToLinks := false
  appendTimestampFormat := strL "YYYY-MM-DDTHH:mm"
  appendTextToOpenTasks := false
  openTaskAppendText := strL "[l:: #Canvas ]"
  statusBarMaxFilenameLength := 20
  linkNodeWidth := 400
  linkNodeHeight := 100
  contentNodeWidth := 400
  contentNodeHeight := 200
  fileNodeWidth := 400
  fileNodeHeight := 400

/-- Main.appendTextToOpenTask: append the configured text to an open-task line
when the feature is enabled, skipping the append when the text is already
present; non-task lines, empty input, and disabled settings return the input
unchanged, as does `modifySourceOnly = false`. -/
def appendTextToOpenTask (s : SendToCanvasSettings) (text : List Char)
    (modifySourceOnly : Bool) : List Char :=
  if text.isEmpty || !(leadsWith taskMarker (trimL text)) || !s.appendTextToOpenTasks then
    text
  else if modifySourceOnly then
    if !(containsSub s.openTaskAppendText text) then
      trimEndL text ++ ' ' :: s.openTaskAppendText
    else text
  else text

/-- BlockReferenceUtils.createBlockReference: locate `selectedText` in
`fileContent`; on failure return the content unchanged with an empty id; if the
located line already ends in an anchor token return that id without mutating;
otherwise append a space, a caret and the freshly generated id (modelled by the
parameter `newId`) to the located line.  Returns the written-back document text
and the block id. -/
def createBlockReference (fileContent selectedText newId : List Char) :
    List Char × List Char :=
  match findTextPosition fileContent selectedText with
  | none => (fileContent, [])
  | some pos =>
    let lines := splitNl fileContent
    let line := lines.getD pos.1 []
    match lastAnchorId line with
    | some existing => (fileContent, existing)
    | none => (joinNl (lines.set pos.1 (line ++ ' ' :: '^' :: newId)), newId)

/-- Main.addBlockIdToSelection: like `createBlockReference` but with two extra
location fallbacks (the caller's cursor line when `content` equals it, then a
scan for a line whose trimmed content equals the trimmed fragment) and a
best-effort branch appending the anchor to the cursor line when location fails
entirely; open-task append text is applied to the mutated line.  The editor
buffer is assumed to agree with the file content, so `editor.getLine` is read
from the split document.  Returns the written-back document and the block id
(empty on total failure). -/
def addBlockIdToSelection (s : SendToCanvasSettings) (doc content : List Char)
    (cursorLine : Nat) (newId : List Char) : List Char × List Char :=
  let lines := splitNl doc
  let lineContent := lines.getD cursorLine []
  let pos0 := findTextPosition doc content
  let pos1 :=
    match pos0 with
    | some p => some p
    | none => if content = lineContent then some (cursorLine, 0) else none
  let pos2 :=
    match pos1 with
    | some p => some p
    | none => scanTrimEq (trimL content) lines
  match pos2 with
  | none =>
    if !lineContent.isEmpty && !(trimL lineContent).isEmpty then
      let modified := appendTextToOpenTask s lineContent true
      (joinNl (lines.set cursorLine (modified ++ ' ' :: '^' :: newId)), newId)
    else (doc, [])
  | some p =>
    let line := lines.getD p.1 []
    match lastAnchorId line with
    | some existing => (doc, existing)
    | none =>
      let modifiedLine := appendTextToOpenTask s line true
      (joinNl (lines.set p.1 (modifiedLine ++ ' ' :: '^' :: newId)), newId)

/-- JSON values, the model of what `JSON.parse` yields for the canvas file.
Numbers are exact rationals, object fields keep their textual order. -/
inductive Json where
  | null : Json
  | bool : Bool → Json
  | num : Rat → Json
  | str : List Char → Json
  | arr : List Json → Json
  | obj : List (List Char × Json) → Json

instance : Inhabited Json := ⟨Json.null⟩

/-- JavaScript property access `j[k]`: on an object the last binding of the
key wins (as after `JSON.parse` of duplicate keys); on every other value the
result is `undefined`, modelled as `none`. -/
def Json.field : Json → List Char → Option Json
  | .obj fs, k => (fs.reverse.find? (fun p => p.1 = k)).map (·.2)
  | _, _ => none

/-- JavaScript truthiness of a JSON value. -/
def Json.truthy : Json → Bool
  | .null => false
  | .bool b => b
  | .num q => if q = 0 then false else true
  | .str s => !s.isEmpty
  | .arr _ => true
  | .obj _ => true

/-- Decimal digit test. -/
def isDigitC (c : Char) : Bool := '0' ≤ c && c ≤ '9'

/-- The double-quote and backslash and brace characters, by code point. -/
def quoteC : Char := Char.ofNat 34

/-- Backslash character. -/
def bslashC : Char := Char.ofNat 92

/-- Opening brace character. -/
def lbraceC : Char := Char.ofNat 123

/-- Closing brace character. -/
def rbraceC : Char := Char.ofNat 125

/-- JSON insignificant whitespace (space, tab, line feed, carriage return). -/
def jsonWs (c : Char) : Bool :=
  c = ' ' || c = Char.ofNat 9 || c = Char.ofNat 10 || c = Char.ofNat 13

/-- Skip insignificant whitespace. -/
def skipWs (l : List Char) : List Char := l.dropWhile jsonWs

/-- Accumulate a run of decimal digits: value so far, digit count, remainder. -/
def parseDigitsAux : Nat → Nat → List Char → Nat × Nat × List Char
  | acc, cnt, [] => (acc, cnt, [])
  | acc, cnt, c :: cs =>
    if isDigitC c then parseDigitsAux (acc * 10 + (c.toNat - 48)) (cnt + 1) cs
    else (acc, cnt, c :: cs)

/-- Hexadecimal digit value. -/
def hexVal (c : Char) : Option Nat :=
  if isDigitC c then some (c.toNat - 48)
  else if 'a' ≤ c && c ≤ 'f' then some (c.toNat - 87)
  else if 'A' ≤ c && c ≤ 'F' then some (c.toNat - 55)
  else none

/-- Parse the body of a JSON string after the opening quote, handling the
standard escapes. -/
def parseStr : List Char → Option (List Char × List Char)
  | [] => none
  | c :: cs =>
    if c = quoteC then some ([], cs)
    else if c = bslashC then
      match cs with
      | [] => none
      | e :: es =>
        if e = quoteC then (parseStr es).map (fun p => (quoteC :: p.1, p.2))
        else if e = bslashC then (parseStr es).map (fun p => (bslashC :: p.1, p.2))
        else if e = '/' then (parseStr es).map (fun p => ('/' :: p.1, p.2))
        else if e = 'b' then (parseStr es).map (fun p => (Char.ofNat 8 :: p.1, p.2))
        else if e = 'f' then (parseStr es).map (fun p => (Char.ofNat 12 :: p.1, p.2))
        else if e = 'n' then (parseStr es).map (fun p => (Char.ofNat 10 :: p.1, p.2))
        else if e = 'r' then (parseStr es).map (fun p => (Char.ofNat 13 :: p.1, p.2))
        else if e = 't' then (parseStr es).map (fun p => (Char.ofNat 9 :: p.1, p.2))
        else if e = 'u' then
          match es with
          | h1 :: h2 :: h3 :: h4 :: r =>
            match hexVal h1, hexVal h2, hexVal h3, hexVal h4 with
            | some a, some b, some d, some g =>
              (parseStr r).map (fun p => (Char.ofNat (((a * 16 + b) * 16 + d) * 16 + g) :: p.1, p.2))
            | _, _, _, _ => none
          | _ => none
        else none
    else (parseStr cs).map (fun p => (c :: p.1, p.2))

/-- Rational addition written through `mkRat` so that elaboration-time
evaluation works; proved equal to `Rat.add` below. -/
def rAdd (a b : Rat) : Rat := mkRat (a.num * b.den + b.num * a.den) (a.den * b.den)

/-- Rational multiplication through `mkRat`. -/
def rMul (a b : Rat) : Rat := mkRat (a.num * b.num) (a.den * b.den)

/-- Rational division through `mkRat` (division by zero yields zero, a corner
no code path reaches: the only divisors are powers of ten). -/
def rDiv (a b : Rat) : Rat :=
  if b.num < 0 then mkRat (-(a.num * b.den)) (a.den * b.num.natAbs)
  else mkRat (a.num * b.den) (a.den * b.num.natAbs)

/-- Rational negation through `mkRat`. -/
def rNeg (a : Rat) : Rat := mkRat (-a.num) a.den

/-- Powers of ten. -/
def tenPowN : Nat → Nat
  | 0 => 1
  | n + 1 => 10 * tenPowN n

/-- Scale a rational by a signed power of ten. -/
def pow10 (q : Rat) (e : Int) : Rat :=
  if 0 ≤ e then rMul q (mkRat (tenPowN e.toNat) 1)
  else rDiv q (mkRat (tenPowN (-e).toNat) 1)

/-- Parse a JSON number (optional sign, digits, optional fraction and
exponent) into an exact rational. -/
def parseNum (s : List Char) : Option (Rat × List Char) :=
  let signed := match s with
    | c :: cs => if c = '-' then (true, cs) else (false, s)
    | [] => (false, s)
  match parseDigitsAux 0 0 signed.2 with
  | (i, ci, s2) =>
    if ci = 0 then none
    else
      let fracPart := match s2 with
        | c :: cs =>
          if c = '.' then
            match parseDigitsAux 0 0 cs with
            | (f, cf, s3) => if cf = 0 then none else some ((i * 10 ^ cf + f, cf), s3)
          else some ((i, 0), s2)
        | [] => some ((i, 0), s2)
      match fracPart with
      | none => none
      | some ((mant, scale), s3) =>
        let expPart : Option (Int × List Char) := match s3 with
          | c :: cs =>
            if c = 'e' || c = 'E' then
              let signedE : Int × List Char := match cs with
                | d :: ds => if d = '+' then (1, ds) else if d = '-' then (-1, ds) else (1, cs)
                | [] => (1, cs)
              match parseDigitsAux 0 0 signedE.2 with
              | (e, ce, s4) => if ce = 0 then none else some (signedE.1 * e, s4)
            else some (0, s3)
          | [] => some (0, s3)
        match expPart with
        | none => none
        | some (e, s4) =>
          let mag := pow10 (pow10 (mkRat (Int.ofNat mant) 1) (-(scale : Int))) e
          some (if signed.1 then rNeg mag else mag, s4)

/-- Item loop for JSON arrays: parse one value with `pv`, then either a comma
and more items or the closing bracket. -/
def arrLoop (pv : List Char → Option (Json × List Char)) :
    Nat → List Char → Option (List Json × List Char)
  | 0, _ => none
  | f + 1, s =>
    match pv s with
    | none => none
    | some (x, r) =>
      match skipWs r with
      | c :: r2 =>
        if c = ',' then (arrLoop pv f r2).map (fun p => (x :: p.1, p.2))
        else if c = ']' then some ([x], r2)
        else none
      | [] => none

/-- Member loop for JSON objects: a quoted key, a colon, a value parsed with
`pv`, then either a comma and more members or the closing brace. -/
def objLoop (pv : List Char → Option (Json × List Char)) :
    Nat → List Char → Option (List (List Char × Json) × List Char)
  | 0, _ => none
  | f + 1, s =>
    match skipWs s with
    | c :: r =>
      if c = quoteC then
        match parseStr r with
        | some (k, r2) =>
          match skipWs r2 with
          | c2 :: r3 =>
            if c2 = ':' then
              match pv r3 with
              | some (v, r4) =>
                match skipWs r4 with
                | c3 :: r5 =>
                  if c3 = ',' then (objLoop pv f r5).map (fun p => ((k, v) :: p.1, p.2))
                  else if c3 = rbraceC then some ([(k, v)], r5)
                  else none
                | [] => none
              | none => none
            else none
          | [] => none
        | none => none
      else none
    | [] => none

/-- Fueled JSON value parser; the fuel only bounds nesting and is ample for
any input of the given length. -/
def parseVal : Nat → List Char → Option (Json × List Char)
  | 0, _ => none
  | f + 1, s =>
    match skipWs s with
    | [] => none
    | c :: cs =>
      if c = 'n' then
        if leadsWith (strL "ull") cs then some (.null, cs.drop 3) else none
      else if c = 't' then
        if leadsWith (strL "rue") cs then some (.bool true, cs.drop 3) else none
      else if c = 'f' then
        if leadsWith (strL "alse") cs then some (.bool false, cs.drop 4) else none
      else if c = quoteC then (parseStr cs).map (fun p => (.str p.1, p.2))
      else if c = '[' then
        match skipWs cs with
        | c2 :: r2 =>
          if c2 = ']' then some (.arr [], r2)
          else (arrLoop (parseVal f) f (skipWs cs)).map (fun p => (.arr p.1, p.2))
        | [] => none
      else if c = lbraceC then
        match skipWs cs with
        | c2 :: r2 =>
          if c2 = rbraceC then some (.obj [], r2)
          else (objLoop (parseVal f) f (skipWs cs)).map (fun p => (.obj p.1, p.2))
        | [] => none
      else if c = '-' || isDigitC c then (parseNum (c :: cs)).map (fun p => (.num p.1, p.2))
      else none

/-- Model of `JSON.parse`: parse one value and require only whitespace to
remain; `none` stands for a thrown `SyntaxError`. -/
def jsonParse (s : List Char) : Option Json :=
  match parseVal (s.length + 2) s with
  | some (j, r) => if (skipWs r).isEmpty then some j else none
  | none => none

/-- Decimal digits of a natural number. -/
def natDigits (n : Nat) : List Char := Nat.toDigits 10 n

/-- Fractional decimal digits of the proper fraction `rem / den`, at most
`k` of them, stopping at zero so no trailing zeros are produced. -/
def fracDigits : Nat → Nat → Nat → List Char
  | 0, _, _ => []
  | k + 1, rem, den =>
    if rem = 0 then []
    else Char.ofNat (48 + rem * 10 / den) :: fracDigits k (rem * 10 % den) den

/-- Decimal rendering of a JSON number, computed from the reduced
numerator/denominator.  All numbers the plugin writes are integers;
non-dyadic fractions are truncated at twenty digits, a corner no code path
reaches. -/
def stringifyNum (q : Rat) : List Char :=
  let sign := if q.num < 0 then ['-'] else ([] : List Char)
  let na := q.num.natAbs
  let ip := na / q.den
  let rem := na % q.den
  sign ++ natDigits ip ++ (if rem = 0 then [] else '.' :: fracDigits 20 rem q.den)

/-- JSON escaping of one character, as `JSON.stringify` performs it. -/
def escChar (c : Char) : List Char :=
  if c = quoteC then [bslashC, quoteC]
  else if c = bslashC then [bslashC, bslashC]
  else if c = Char.ofNat 10 then [bslashC, 'n']
  else if c = Char.ofNat 13 then [bslashC, 'r']
  else if c = Char.ofNat 9 then [bslashC, 't']
  else if c = Char.ofNat 8 then [bslashC, 'b']
  else if c = Char.ofNat 12 then [bslashC, 'f']
  else if c.toNat < 32 then
    [bslashC, 'u', '0', '0',
     (if c.toNat / 16 < 10 then Char.ofNat (48 + c.toNat / 16) else Char.ofNat (87 + c.toNat / 16)),
     (if c.toNat % 16 < 10 then Char.ofNat (48 + c.toNat % 16) else Char.ofNat (87 + c.toNat % 16))]
  else [c]

/-- JSON escaping of a string body. -/
def escapeStr (s : List Char) : List Char := (s.map escChar).flatten

/-- Comma-join of rendered pieces. -/
def joinComma : List (List Char) → List Char
  | [] => []
  | [x] => x
  | x :: xs => x ++ ',' :: joinComma xs

/-- Fueled JSON printer (compact).  `JSON.stringify(data, null, 2)` in the
source pretty-prints with two-space indentation; since the parser ignores
insignificant whitespace, the round-tripped value is the same, and no claim
concerns the byte layout of the file. -/
def stringifyVal : Nat → Json → List Char
  | 0, _ => []
  | f + 1, j =>
    match j with
    | .null => strL "null"
    | .bool b => if b then strL "true" else strL "false"
    | .num q => stringifyNum q
    | .str s => quoteC :: escapeStr s ++ [quoteC]
    | .arr xs => '[' :: joinComma (xs.map (stringifyVal f)) ++ [']']
    | .obj fs =>
      lbraceC :: joinComma
        (fs.map (fun p => quoteC :: escapeStr p.1 ++ quoteC :: ':' :: stringifyVal f p.2)) ++ [rbraceC]

/-- Model of `JSON.stringify` on the values the plugin builds (nesting depth
far below the fixed fuel). -/
def stringifyJson (j : Json) : List Char := stringifyVal 1000 j

/-- The canvas document: node and edge collections, each a list of duck-typed
JSON values as the source treats them. -/
structure CanvasData where
  nodes : List Json
  edges : List Json

/-- The text `JSON.stringify({ nodes: [], edges: [] })` written when the
canvas file is empty or too short. -/
def emptyCanvasText : List Char :=
  stringifyJson (.obj [(strL "nodes", .arr []), (strL "edges", .arr [])])

/-- The post-decode defaulting `if (!canvasData.nodes) canvasData.nodes = []`
(and likewise for edges): an absent or falsy member becomes the empty list.  A
present truthy non-array member would make the later `push` throw in the
source; no claim reaches that corner and it is collapsed to the empty list
here. -/
def canvasFromJson (j : Json) : CanvasData where
  nodes := match j.field (strL "nodes") with
    | some (.arr xs) => xs
    | _ => []
  edges := match j.field (strL "edges") with
    | some (.arr xs) => xs
    | _ => []

/-- The canvas-reading prefix shared verbatim by `addToCanvas`,
`addNoteToCanvas` and `addNoteAsLinkToCanvas`: empty or too-short content is
replaced by the serialized empty document before parsing, a parse failure is
recovered as the empty document, and missing collections are defaulted. -/
def loadCanvas (raw : List Char) : CanvasData :=
  let content := if (trimL raw).length < 2 then emptyCanvasText else raw
  match jsonParse content with
  | none => ⟨[], []⟩
  | some j => canvasFromJson j

/-- The well-formed-position test of `calculateNewNodePosition`:
`node.position && typeof node.position.x === "number" && typeof
node.position.y === "number"`, returning the coordinates when it passes. -/
def nodePos (n : Json) : Option (Rat × Rat) :=
  match n.field (strL "position") with
  | none => none
  | some p =>
    if p.truthy then
      match p.field (strL "x"), p.field (strL "y") with
      | some (.num x), some (.num y) => some (x, y)
      | _, _ => none
    else none

/-- One step of the rightmost-node loop: keep the node with the larger
`position.x` (strictly, so the earlier node wins ties). -/
def pickRight (best n : Json) : Json :=
  if ((nodePos n).getD (0, 0)).1 > ((nodePos best).getD (0, 0)).1 then n else best

/-- Main.calculateNewNodePosition: origin for an empty collection, otherwise
filter to nodes with a well-formed `position`, return origin if none remain,
else take the rightmost such node and place the new node 500 plane-units to
its right at the same `y`. -/
def calculateNewNodePosition (nodes : List Json) : Rat × Rat :=
  if nodes.isEmpty then (0, 0)
  else
    let validNodes := nodes.filter (fun n => (nodePos n).isSome)
    match validNodes with
    | [] => (0, 0)
    | v :: vs =>
      let r := (v :: vs).foldl pickRight v
      (rAdd ((nodePos r).getD (0, 0)).1 500, ((nodePos r).getD (0, 0)).2)

/-- The three send formats. -/
inductive SendFormat where
  | plain : SendFormat
  | link : SendFormat
  | embed : SendFormat

/-- The node text assembled by `addToCanvas`: `[[basename#^blockId]]` for a
link, `![[basename#^blockId]]` for an embed, the content unchanged for plain
text; when `appendTimestampToLinks` is set, link and embed text receives a
space and the formatted timestamp (the value of
`moment().format(appendTimestampFormat)`, supplied here as `now`). -/
def formatNodeText (s : SendToCanvasSettings) (format : SendFormat)
    (content basename blockId now : List Char) : List Char :=
  match format with
  | .plain => content
  | .link =>
    let linkText := '[' :: '[' :: (basename ++ '#' :: '^' :: blockId ++ strL "]]")
    if s.appendTimestampToLinks then linkText ++ ' ' :: now else linkText
  | .embed =>
    let linkText := '!' :: '[' :: '[' :: (basename ++ '#' :: '^' :: blockId ++ strL "]]")
    if s.appendTimestampToLinks then linkText ++ ' ' :: now else linkText

/-- Node dimensions chosen by `addToCanvas` per format. -/
def nodeDims (s : SendToCanvasSettings) (format : SendFormat) : Rat × Rat :=
  match format with
  | .link => (s.linkNodeWidth, s.linkNodeHeight)
  | .embed => (s.contentNodeWidth, s.contentNodeHeight)
  | .plain => (s.contentNodeWidth, s.contentNodeHeight)

/-- Main.addToCanvas, canvas side: load (with repair) the canvas text, place
the new node with `calculateNewNodePosition`, push a text node carrying the
formatted reference with top-level `x`/`y` fields, and serialize the result.
`nodeId` stands for the random `generateNodeId()`.  The write-back of
open-task append text into the source note that the embed branch may also
perform touches the note file, not the canvas, and is modelled with
`addBlockIdToSelection`'s append instead. -/
def addToCanvasStep (s : SendToCanvasSettings) (format : SendFormat)
    (content basename blockId now nodeId : List Char) (canvasRaw : List Char) : List Char :=
  let data := loadCanvas canvasRaw
  let pos := calculateNewNodePosition data.nodes
  let text := formatNodeText s format content basename blockId now
  let dims := nodeDims s format
  let newNode : Json := .obj
    [ (strL "id", .str nodeId), (strL "type", .str (strL "text"))
    , (strL "x", .num pos.1), (strL "y", .num pos.2)
    , (strL "width", .num dims.1), (strL "height", .num dims.2)
    , (strL "text", .str text) ]
  stringifyJson (.obj [(strL "nodes", .arr (data.nodes ++ [newNode])), (strL "edges", .arr data.edges)])

/-- JavaScript `hay.replace(needle, repl)` with string arguments: replace the
first occurrence only. -/
def replaceFirst (needle repl hay : List Char) : List Char :=
  match idxOf needle hay with
  | none => hay
  | some k => hay.take k ++ repl ++ hay.drop (k + needle.length)

/-- Main.sendSelectionToCanvas, data flow: pick the selection or the cursor
line (aborting with `none` when both are blank), obtain a block id for link
and embed sends via `addBlockIdToSelection`, re-read the mutated note to strip
the anchor from the content, and unconditionally append the node to the
canvas.  Returns the updated note text, the block id, and the updated canvas
text. -/
def sendSelectionPipeline (s : SendToCanvasSettings) (format : SendFormat)
    (doc selection : List Char) (cursorLine : Nat)
    (basename newId nodeId now canvasRaw : List Char) :
    Option (List Char × List Char × List Char) :=
  let lines0 := splitNl doc
  let curLine := lines0.getD cursorLine []
  let textToSend := if (trimL selection).isEmpty then curLine else selection
  if (trimL textToSend).isEmpty then none
  else
    let anchored :=
      match format with
      | .plain => (doc, ([] : List Char))
      | .link => addBlockIdToSelection s doc textToSend cursorLine newId
      | .embed => addBlockIdToSelection s doc textToSend cursorLine newId
    let contentToSend :=
      if anchored.2.isEmpty then textToSend
      else
        match (splitNl anchored.1).find? (fun l => containsSub ('^' :: anchored.2) l) with
        | some l => replaceFirst (' ' :: '^' :: anchored.2) [] l
        | none => textToSend
    some (anchored.1, anchored.2,
      addToCanvasStep s format contentToSend basename anchored.2 now nodeId canvasRaw)

/-- The `mkRat` formulation of addition agrees with `Rat.add`. -/
theorem rAdd_eq_add (a b : Rat) : rAdd a b = a + b := by
  rw [Rat.add_def]
  simp [rAdd, Rat.normalize_eq_mkRat]

theorem dw_app_ne {p : Char → Bool} {a : List Char} (b : List Char)
    (h : a.dropWhile p ≠ []) : (a ++ b).dropWhile p = a.dropWhile p ++ b := by
  induction a with
  | nil => simp [List.dropWhile] at h
  | cons c cs ih =>
    by_cases hc : p c
    · simp only [List.dropWhile_cons, hc, if_true, List.cons_append] at h ⊢
      exact ih h
    · simp [List.dropWhile_cons, hc]

theorem dw_app_nil {p : Char → Bool} {a : List Char} (b : List Char)
    (h : a.dropWhile p = []) : (a ++ b).dropWhile p = b.dropWhile p := by
  induction a with
  | nil => simp
  | cons c cs ih =>
    by_cases hc : p c
    · simp only [List.dropWhile_cons, hc, if_true, List.cons_append] at h ⊢
      exact ih h
    · simp [List.dropWhile_cons, hc] at h

theorem dw_idem (p : Char → Bool) (a : List Char) :
    (a.dropWhile p).dropWhile p = a.dropWhile p := by
  induction a with
  | nil => simp
  | cons c cs ih =>
    by_cases hc : p c
    · simp only [List.dropWhile_cons, hc, if_true]
      exact ih
    · simp [List.dropWhile_cons, hc]

theorem trimStartL_app_ne {a : List Char} (b : List Char) (h : trimStartL a ≠ []) :
    trimStartL (a ++ b) = trimStartL a ++ b :=
  dw_app_ne b h

theorem trimEndL_app_ne (a : List Char) {b : List Char} (h : trimEndL b ≠ []) :
    trimEndL (a ++ b) = a ++ trimEndL b := by
  have h' : b.reverse.dropWhile jsWS ≠ [] := by
    intro hh
    exact h (by simp [trimEndL, hh])
  simp only [trimEndL, List.reverse_append]
  rw [dw_app_ne _ h', List.reverse_append, List.reverse_reverse]

theorem trimEndL_app_nil (a : List Char) {b : List Char} (h : trimEndL b = []) :
    trimEndL (a ++ b) = trimEndL a := by
  have h' : b.reverse.dropWhile jsWS = [] := by
    have := congrArg List.reverse h
    simpa [trimEndL] using this
  simp only [trimEndL, List.reverse_append]
  rw [dw_app_nil _ h']

theorem trimEndL_idem (x : List Char) : trimEndL (trimEndL x) = trimEndL x := by
  simp only [trimEndL, List.reverse_reverse]
  rw [dw_idem]

theorem leadsWith_iff_ex {p l : List Char} : leadsWith p l = true ↔ ∃ t, l = p ++ t := by
  induction p generalizing l with
  | nil => simp [leadsWith]
  | cons c cs ih =>
    cases l with
    | nil => simp [leadsWith]
    | cons d ds =>
      simp only [leadsWith, Bool.and_eq_true, decide_eq_true_eq, ih, List.cons_append,
        List.cons.injEq]
      constructor
      · rintro ⟨rfl, t, rfl⟩
        exact ⟨t, rfl, rfl⟩
      · rintro ⟨t, rfl, rfl⟩
        exact ⟨rfl, t, rfl⟩

theorem leadsWith_refl_app (p t : List Char) : leadsWith p (p ++ t) = true :=
  leadsWith_iff_ex.mpr ⟨t, rfl⟩

theorem leadsWith_app {p l : List Char} (s : List Char) (h : leadsWith p l = true) :
    leadsWith p (l ++ s) = true := by
  obtain ⟨t, rfl⟩ := leadsWith_iff_ex.mp h
  rw [List.append_assoc]
  exact leadsWith_refl_app p (t ++ s)

theorem ne_nil_of_leadsWith {p l : List Char} (h : leadsWith p l = true) (hp : p ≠ []) :
    l ≠ [] := by
  obtain ⟨t, rfl⟩ := leadsWith_iff_ex.mp h
  simp [hp]

theorem idxOf_nil_needle (x : List Char) : idxOf [] x = some 0 := by
  cases x <;> simp [idxOf, leadsWith]

theorem idxOf_isSome_cons {t r : List Char} (c : Char) (h : (idxOf t r).isSome = true) :
    (idxOf t (c :: r)).isSome = true := by
  by_cases hl : leadsWith t (c :: r)
  · simp [idxOf, hl]
  · cases hi : idxOf t r with
    | none => simp [hi] at h
    | some k => simp [idxOf, hl, hi]

theorem idxOf_isSome_app {t l : List Char} (s : List Char) (h : (idxOf t l).isSome = true) :
    (idxOf t (l ++ s)).isSome = true := by
  induction l with
  | nil =>
    simp only [idxOf] at h
    by_cases ht : t = []
    · subst ht
      simp [idxOf_nil_needle]
    · simp [ht] at h
  | cons c cs ih =>
    simp only [idxOf] at h
    by_cases hl : leadsWith t (c :: cs)
    · have : leadsWith t ((c :: cs) ++ s) = true := leadsWith_app s hl
      simp only [List.cons_append] at this ⊢
      simp [idxOf, this]
    · simp only [hl, Bool.false_eq_true, if_false] at h
      cases hi : idxOf t cs with
      | none => simp [hi] at h
      | some k => exact idxOf_isSome_cons c (ih (by simp [hi]))

theorem containsSub_suffix (y t : List Char) : containsSub t (y ++ t) = true := by
  induction y with
  | nil =>
    cases t with
    | nil => simp [containsSub, idxOf]
    | cons c cs =>
      have : leadsWith (c :: cs) (c :: cs) = true := by
        have := leadsWith_refl_app (c :: cs) []
        simpa using this
      simp [containsSub, idxOf, this]
  | cons c cs ih =>
    simp only [List.cons_append]
    exact idxOf_isSome_cons c ih

theorem containsSub_app {t l : List Char} (s : List Char) (h : containsSub t l = true) :
    containsSub t (l ++ s) = true :=
  idxOf_isSome_app s h

theorem splitNl_ne_nil (s : List Char) : splitNl s ≠ [] := by
  induction s with
  | nil => simp [splitNl]
  | cons c cs ih =>
    cases h : splitNl cs with
    | nil => exact absurd h ih
    | cons h0 t0 =>
      by_cases hc : c = nlChar <;> simp [splitNl, h, hc]

theorem not_nl_mem_splitNl {s : List Char} {l : List Char} (h : l ∈ splitNl s) :
    nlChar ∉ l := by
  induction s generalizing l with
  | nil =>
    simp [splitNl] at h
    simp [h]
  | cons c cs ih =>
    cases hs : splitNl cs with
    | nil => exact absurd hs (splitNl_ne_nil cs)
    | cons h0 t0 =>
      by_cases hc : c = nlChar
      · simp only [splitNl, hs, hc, if_true, List.mem_cons] at h
        rcases h with rfl | h
        · simp
        · exact ih (by rw [hs]; exact List.mem_cons.mpr h)
      · simp only [splitNl, hs, hc, if_false, List.mem_cons] at h
        rcases h with rfl | h
        · intro hmem
          rcases List.mem_cons.mp hmem with rfl | hmem
          · exact hc rfl
          · exact ih (by rw [hs]; exact List.mem_cons_self h0 t0) hmem
        · exact ih (by rw [hs]; exact List.mem_cons_of_mem h0 h)

theorem splitNl_of_not_mem {l : List Char} (h : nlChar ∉ l) : splitNl l = [l] := by
  induction l with
  | nil => simp [splitNl]
  | cons c cs ih =>
    have hc : c ≠ nlChar := fun hh => h (by simp [hh])
    have hcs : nlChar ∉ cs := fun hh => h (List.mem_cons_of_mem c hh)
    simp [splitNl, ih hcs, hc]

theorem splitNl_app_nl {l : List Char} (s : List Char) (h : nlChar ∉ l) :
    splitNl (l ++ nlChar :: s) = l :: splitNl s := by
  induction l with
  | nil =>
    cases hs : splitNl s with
    | nil => exact absurd hs (splitNl_ne_nil s)
    | cons h0 t0 => simp [splitNl, hs]
  | cons c cs ih =>
    have hc : c ≠ nlChar := fun hh => h (by simp [hh])
    have hcs : nlChar ∉ cs := fun hh => h (List.mem_cons_of_mem c hh)
    have ih' := ih hcs
    cases hs : splitNl (cs ++ nlChar :: s) with
    | nil => exact absurd hs (splitNl_ne_nil _)
    | cons h0 t0 =>
      rw [hs] at ih'
      cases ih'
      simp [splitNl, hs, hc]

theorem splitNl_joinNl {ls : List (List Char)} (hne : ls ≠ [])
    (h : ∀ l ∈ ls, nlChar ∉ l) : splitNl (joinNl ls) = ls := by
  induction ls with
  | nil => exact absurd rfl hne
  | cons l ls' ih =>
    cases ls' with
    | nil =>
      simp only [joinNl]
      exact splitNl_of_not_mem (h l (List.mem_cons_self l []))
    | cons l2 t =>
      have h1 : nlChar ∉ l := h l (List.mem_cons_self _ _)
      have h2 : ∀ x ∈ l2 :: t, nlChar ∉ x := fun x hx => h x (List.mem_cons_of_mem l hx)
      show splitNl (l ++ nlChar :: joinNl (l2 :: t)) = l :: l2 :: t
      rw [splitNl_app_nl _ h1, ih (by simp) h2]

theorem getD_set_self {α : Type} {ls : List α} {i : Nat} {m d : α} (h : i < ls.length) :
    (ls.set i m).getD i d = m := by
  induction ls generalizing i with
  | nil => simp at h
  | cons a t ih =>
    cases i with
    | zero => simp
    | succ j =>
      simp only [List.set, List.getD_cons_succ]
      exact ih (Nat.lt_of_succ_lt_succ h)

theorem getD_set_ne {α : Type} {ls : List α} {i j : Nat} {m d : α} (h : j ≠ i) :
    (ls.set i m).getD j d = ls.getD j d := by
  induction ls generalizing i j with
  | nil => simp
  | cons a t ih =>
    cases i with
    | zero =>
      cases j with
      | zero => exact absurd rfl h
      | succ j' => simp
    | succ i' =>
      cases j with
      | zero => simp
      | succ j' =>
        simp only [List.set, List.getD_cons_succ]
        exact ih (fun hh => h (by rw [hh]))

theorem mem_set_cases {α : Type} {ls : List α} {i : Nat} {m x : α} (h : x ∈ ls.set i m) :
    x = m ∨ x ∈ ls := by
  induction ls generalizing i with
  | nil => simp at h
  | cons a t ih =>
    cases i with
    | zero =>
      rcases List.mem_cons.mp h with rfl | h
      · exact Or.inl rfl
      · exact Or.inr (List.mem_cons_of_mem a h)
    | succ i' =>
      rcases List.mem_cons.mp h with rfl | h
      · exact Or.inr (List.mem_cons_self x t)
      · rcases ih h with rfl | h
        · exact Or.inl rfl
        · exact Or.inr (List.mem_cons_of_mem a h)

theorem scanGen_lt {p : List Char → Option Nat} {ls : List (List Char)} {i k : Nat}
    (h : scanGen p ls = some (i, k)) : i < ls.length := by
  induction ls generalizing i k with
  | nil => simp [scanGen] at h
  | cons l t ih =>
    cases hp : p l with
    | some k0 =>
      simp only [scanGen, hp] at h
      cases h
      simp
    | none =>
      simp only [scanGen, hp] at h
      cases hq : scanGen p t with
      | none => simp [hq] at h
      | some q =>
        simp only [hq, Option.map_some'] at h
        cases h
        exact Nat.succ_lt_succ (ih hq)

theorem scanGen_getD {p : List Char → Option Nat} {ls : List (List Char)} {i k : Nat}
    (h : scanGen p ls = some (i, k)) : p (ls.getD i []) = some k := by
  induction ls generalizing i k with
  | nil => simp [scanGen] at h
  | cons l t ih =>
    cases hp : p l with
    | some k0 =>
      simp only [scanGen, hp] at h
      cases h
      simpa using hp
    | none =>
      simp only [scanGen, hp] at h
      cases hq : scanGen p t with
      | none => simp [hq] at h
      | some q =>
        simp only [hq, Option.map_some'] at h
        cases h
        simpa using ih hq

theorem scanGen_first {p : List Char → Option Nat} {ls : List (List Char)} {i k : Nat}
    (h : scanGen p ls = some (i, k)) : ∀ j, j < i → p (ls.getD j []) = none := by
  induction ls generalizing i k with
  | nil => simp [scanGen] at h
  | cons l t ih =>
    cases hp : p l with
    | some k0 =>
      simp only [scanGen, hp] at h
      cases h
      intro j hj
      exact absurd hj (Nat.not_lt_zero j)
    | none =>
      simp only [scanGen, hp] at h
      cases hq : scanGen p t with
      | none => simp [hq] at h
      | some q =>
        simp only [hq, Option.map_some'] at h
        cases h
        intro j hj
        cases j with
        | zero => simpa using hp
        | succ j' =>
          simpa using ih hq j' (Nat.lt_of_succ_lt_succ hj)

theorem scanGen_isSome_iff {p : List Char → Option Nat} {ls : List (List Char)} :
    (scanGen p ls).isSome = true ↔ ∃ l ∈ ls, (p l).isSome = true := by
  induction ls with
  | nil => simp [scanGen]
  | cons l t ih =>
    cases hp : p l with
    | some k0 => simp [scanGen, hp]
    | none =>
      cases hq : scanGen p t with
      | none =>
        simp only [scanGen, hp, hq, Option.map_none']
        constructor
        · intro hh
          simp at hh
        · rintro ⟨x, hx, hpx⟩
          rcases List.mem_cons.mp hx with rfl | hx
          · rw [hp] at hpx
            simp at hpx
          · have : (scanGen p t).isSome = true := ih.mpr ⟨x, hx, hpx⟩
            rw [hq] at this
            simp at this
      | some q =>
        simp only [scanGen, hp, hq, Option.map_some']
        constructor
        · intro _
          obtain ⟨x, hx, hpx⟩ := ih.mp (by rw [hq]; rfl)
          exact ⟨x, List.mem_cons_of_mem l hx, hpx⟩
        · intro _
          rfl

theorem scanGen_set {p : List Char → Option Nat} {ls : List (List Char)} {i k k' : Nat}
    {m : List Char} (h : scanGen p ls = some (i, k)) (hm : p m = some k') :
    scanGen p (ls.set i m) = some (i, k') := by
  induction ls generalizing i k with
  | nil => simp [scanGen] at h
  | cons l t ih =>
    cases hp : p l with
    | some k0 =>
      simp only [scanGen, hp] at h
      cases h
      simp [List.set, scanGen, hm]
    | none =>
      simp only [scanGen, hp] at h
      cases hq : scanGen p t with
      | none => simp [hq] at h
      | some q =>
        simp only [hq, Option.map_some'] at h
        cases h
        simp [List.set, scanGen, hp, ih hq]

theorem takeWhile_all_app {p : Char → Bool} {u : List Char} (v : List Char)
    (h : ∀ c ∈ u, p c = true) : (u ++ v).takeWhile p = u ++ v.takeWhile p := by
  induction u with
  | nil => simp
  | cons c cs ih =>
    have hc : p c = true := h c (List.mem_cons_self c cs)
    simp only [List.cons_append, List.takeWhile_cons, hc, if_true]
    rw [ih (fun x hx => h x (List.mem_cons_of_mem c hx))]

theorem takeWhile_neg_cons {p : Char → Bool} {c : Char} (v : List Char) (h : p c = false) :
    (c :: v).takeWhile p = [] := by
  simp [List.takeWhile_cons, h]

theorem lastAnchorId_trailing (pre : List Char) {run : List Char} (hne : run ≠ [])
    (h : ∀ c ∈ run, anchorChar c = true) :
    lastAnchorId (pre ++ '^' :: run) = some run := by
  have hall : ∀ c ∈ run.reverse, anchorChar c = true := fun c hc =>
    h c (List.mem_reverse.mp hc)
  have hrev : (pre ++ '^' :: run).reverse = run.reverse ++ '^' :: pre.reverse := by
    simp
  have hcaret : anchorChar '^' = false := by decide
  have htake : (pre ++ '^' :: run).reverse.takeWhile anchorChar = run.reverse := by
    rw [hrev, takeWhile_all_app _ hall, takeWhile_neg_cons _ hcaret, List.append_nil]
  have hlen : run.reverse.length = run.length := List.length_reverse run
  have hdrop : (pre ++ '^' :: run).reverse.drop run.reverse.length = '^' :: pre.reverse := by
    rw [hrev, List.drop_left]
  simp only [lastAnchorId, htake, hdrop]
  have hne' : run.reverse.isEmpty = false := by
    cases hr : run.reverse with
    | nil => exact absurd (by simpa using congrArg List.reverse hr) hne
    | cons a b => simp
  simp [hne']

theorem task_trim_keep {x app : List Char} (h : leadsWith taskMarker (trimL x) = true) :
    leadsWith taskMarker (trimL (trimEndL x ++ ' ' :: app)) = true := by
  by_cases hb : trimEndL (' ' :: app) = []
  · show leadsWith taskMarker (trimStartL (trimEndL (trimEndL x ++ ' ' :: app))) = true
    rw [trimEndL_app_nil _ hb, trimEndL_idem]
    exact h
  · show leadsWith taskMarker (trimStartL (trimEndL (trimEndL x ++ ' ' :: app))) = true
    rw [trimEndL_app_ne _ hb]
    have hx : trimStartL (trimEndL x) ≠ [] :=
      ne_nil_of_leadsWith h (by decide)
    rw [trimStartL_app_ne _ hx]
    exact leadsWith_app _ h

/-- Settings with the open-task append feature switched on (other fields at
their defaults). -/
def settingsTasksOn : SendToCanvasSettings :=
  { DEFAULT_SETTINGS with appendTextToOpenTasks := true }

/-- C7 — Open-task append idempotence: with the feature enabled, applying
`appendTextToOpenTask` to an open-task line twice changes it only once — the
second application returns its input unchanged because the configured text is
already present; non-task lines and disabled settings are returned unchanged;
concretely, `"- [ ] Task"` becomes `"- [ ] Task [l:: #Canvas ]"` and stays
there. -/
theorem C7_open_task_append_idempotent :
    (∀ (s : SendToCanvasSettings) (x : List Char),
       s.appendTextToOpenTasks = true →
       leadsWith taskMarker (trimL x) = true →
       appendTextToOpenTask s (appendTextToOpenTask s x true) true =
         appendTextToOpenTask s x true ∧
       containsSub s.openTaskAppendText (appendTextToOpenTask s x true) = true) ∧
    (∀ (s : SendToCanvasSettings) (x : List Char) (m : Bool),
       leadsWith taskMarker (trimL x) = false → appendTextToOpenTask s x m = x) ∧
    (∀ (s : SendToCanvasSettings) (x : List Char) (m : Bool),
       s.appendTextToOpenTasks = false → appendTextToOpenTask s x m = x) ∧
    appendTextToOpenTask settingsTasksOn
        (appendTextToOpenTask settingsTasksOn (strL "- [ ] Task") true) true =
      strL "- [ ] Task [l:: #Canvas ]" := by
  refine ⟨?_, ?_, ?_, by decide⟩
  · intro s x hEn hTask
    have hx : x ≠ [] := by
      intro hh
      subst hh
      exact absurd hTask (by decide)
    have hxe : x.isEmpty = false := by
      cases x with
      | nil => exact absurd rfl hx
      | cons a b => rfl
    by_cases hIn : containsSub s.openTaskAppendText x = true
    · have hfx : appendTextToOpenTask s x true = x := by
        simp [appendTextToOpenTask, hxe, hTask, hEn, hIn]
      rw [hfx]
      exact ⟨hfx, hIn⟩
    · have hfx : appendTextToOpenTask s x true = trimEndL x ++ ' ' :: s.openTaskAppendText := by
        simp only [Bool.not_eq_true] at hIn
        simp [appendTextToOpenTask, hxe, hTask, hEn, hIn]
      have hyne : trimEndL x ++ ' ' :: s.openTaskAppendText ≠ [] := by simp
      have hye : (trimEndL x ++ ' ' :: s.openTaskAppendText).isEmpty = false := by
        cases he : trimEndL x ++ ' ' :: s.openTaskAppendText with
        | nil => exact absurd he hyne
        | cons a b => rfl
      have hyT : leadsWith taskMarker (trimL (trimEndL x ++ ' ' :: s.openTaskAppendText)) = true :=
        task_trim_keep hTask
      have hyIn : containsSub s.openTaskAppendText (trimEndL x ++ ' ' :: s.openTaskAppendText) = true := by
        have h0 := containsSub_suffix (trimEndL x ++ [' ']) s.openTaskAppendText
        simpa [List.append_assoc] using h0
      rw [hfx]
      refine ⟨?_, hyIn⟩
      simp [appendTextToOpenTask, hye, hyT, hEn, hyIn]
  · intro s x m hTask
    simp [appendTextToOpenTask, hTask]
  · intro s x m hEn
    simp [appendTextToOpenTask, hEn]

/-- C2 — Locator cascade: `findTextPosition` tries its five passes in order
(exact substring, trimmed substring, open-task heuristic, trimmed equality
with the first line of a multi-line fragment, whitespace-normalized
equality), returns the position of the first pass that matches, and yields
`none` exactly when all five fail; on the document line `"- [ ] Buy milk"`
the exact, whitespace-padded, and partial open-task fragments are all
located. -/
theorem C2_locator_cascade :
    (∀ content text p, scanIdx text (splitNl content) = some p →
        findTextPosition content text = some p) ∧
    (∀ content text p, scanIdx text (splitNl content) = none →
        scanIdx (trimL text) (splitNl content) = some p →
        findTextPosition content text = some p) ∧
    (∀ content text p, scanIdx text (splitNl content) = none →
        scanIdx (trimL text) (splitNl content) = none →
        leadsWith taskMarker (trimL text) = true →
        scanTask (trimL ((trimL text).drop taskMarker.length)) (splitNl content) = some p →
        findTextPosition content text = some p) ∧
    (∀ content text p, scanIdx text (splitNl content) = none →
        scanIdx (trimL text) (splitNl content) = none →
        (if leadsWith taskMarker (trimL text) then
           scanTask (trimL ((trimL text).drop taskMarker.length)) (splitNl content)
         else none) = none →
        containsSub [nlChar] text = true →
        scanTrimEq (trimL ((splitNl text).getD 0 [])) (splitNl content) = some p →
        findTextPosition content text = some p) ∧
    (∀ content text p, scanIdx text (splitNl content) = none →
        scanIdx (trimL text) (splitNl content) = none →
        (if leadsWith taskMarker (trimL text) then
           scanTask (trimL ((trimL text).drop taskMarker.length)) (splitNl content)
         else none) = none →
        (if containsSub [nlChar] text then
           scanTrimEq (trimL ((splitNl text).getD 0 [])) (splitNl content)
         else none) = none →
        scanNorm (normL (trimL text)) (splitNl content) = some p →
        findTextPosition content text = some p) ∧
    (∀ content text, findTextPosition content text = none ↔
        (scanIdx text (splitNl content) = none ∧
         scanIdx (trimL text) (splitNl content) = none ∧
         (if leadsWith taskMarker (trimL text) then
            scanTask (trimL ((trimL text).drop taskMarker.length)) (splitNl content)
          else none) = none ∧
         (if containsSub [nlChar] text then
            scanTrimEq (trimL ((splitNl text).getD 0 [])) (splitNl content)
          else none) = none ∧
         scanNorm (normL (trimL text)) (splitNl content) = none)) ∧
    findTextPosition (strL "- [ ] Buy milk") (strL "- [ ] Buy milk") = some (0, 0) ∧
    findTextPosition (strL "- [ ] Buy milk") (strL "  - [ ] Buy milk  ") = some (0, 0) ∧
    findTextPosition (strL "- [ ] Buy milk") (strL "- [ ] Buy") = some (0, 0) := by
  refine ⟨?_, ?_, ?_, ?_, ?_, ?_, by decide, by decide, by decide⟩
  · intro c t p h1
    simp [findTextPosition, h1]
  · intro c t p h1 h2
    simp [findTextPosition, h1, h2]
  · intro c t p h1 h2 h3a h3
    simp [findTextPosition, h1, h2, h3a, h3]
  · intro c t p h1 h2 h3 h4a h4
    simp only [List.getD_eq_getElem?_getD] at h4
    simp [findTextPosition, h1, h2, h3, h4a, h4]
  · intro c t p h1 h2 h3 h4 h5
    simp only [List.getD_eq_getElem?_getD] at h4
    simp [findTextPosition, h1, h2, h3, h4, h5]
  · intro c t
    cases h1 : scanIdx t (splitNl c) with
    | some p => simp [findTextPosition, h1]
    | none =>
      cases h2 : scanIdx (trimL t) (splitNl c) with
      | some p => simp [findTextPosition, h1, h2]
      | none =>
        cases h3 : (if leadsWith taskMarker (trimL t) then
            scanTask (trimL ((trimL t).drop taskMarker.length)) (splitNl c)
          else none) with
        | some p => simp [findTextPosition, h1, h2, h3]
        | none =>
          cases h4 : (if containsSub [nlChar] t then
              scanTrimEq (trimL ((splitNl t)[0]?.getD [])) (splitNl c)
            else none) with
          | some p => simp [findTextPosition, h1, h2, h3, h4]
          | none =>
            cases h5 : scanNorm (normL (trimL t)) (splitNl c) with
            | some p => simp [findTextPosition, h1, h2, h3, h4, h5]
            | none => simp [findTextPosition, h1, h2, h3, h4, h5]

/-- Abbreviation for the x coordinate read by the rightmost-node loop. -/
def posX (n : Json) : Rat := ((nodePos n).getD (0, 0)).1

/-- Abbreviation for the y coordinate read by the rightmost-node loop. -/
def posY (n : Json) : Rat := ((nodePos n).getD (0, 0)).2

theorem foldl_pickRight_spec (vs : List Json) (v : Json) :
    vs.foldl pickRight v ∈ v :: vs ∧ ∀ m ∈ v :: vs, posX m ≤ posX (vs.foldl pickRight v) := by
  induction vs generalizing v with
  | nil =>
    refine ⟨List.mem_cons_self v [], ?_⟩
    intro m hm
    rcases List.mem_cons.mp hm with rfl | hm
    · exact le_refl _
    · simp at hm
  | cons n rest ih =>
    obtain ⟨ihMem, ihBd⟩ := ih (pickRight v n)
    have hpick : pickRight v n = n ∨ pickRight v n = v := by
      unfold pickRight
      split
      · exact Or.inl rfl
      · exact Or.inr rfl
    have hvle : posX v ≤ posX (pickRight v n) := by
      unfold pickRight posX
      split
      · exact le_of_lt (by assumption)
      · exact le_refl _
    have hnle : posX n ≤ posX (pickRight v n) := by
      unfold pickRight posX
      split
      · exact le_refl _
      · exact le_of_not_lt (by assumption)
    constructor
    · show rest.foldl pickRight (pickRight v n) ∈ v :: n :: rest
      rcases List.mem_cons.mp ihMem with heq | hmem
      · rw [heq]
        rcases hpick with h | h <;> rw [h]
        · exact List.mem_cons_of_mem v (List.mem_cons_self n rest)
        · exact List.mem_cons_self v (n :: rest)
      · exact List.mem_cons_of_mem v (List.mem_cons_of_mem n hmem)
    · intro m hm
      rcases List.mem_cons.mp hm with rfl | hm
      · exact le_trans hvle (ihBd _ (List.mem_cons_self _ _))
      rcases List.mem_cons.mp hm with rfl | hm
      · exact le_trans hnle (ihBd _ (List.mem_cons_self _ _))
      · exact ihBd m (List.mem_cons_of_mem _ hm)

/-- C4 — Placement algorithm: `calculateNewNodePosition` returns the origin
for an empty collection; filtering to nodes with a well-formed numeric
`position`, it returns the origin when none remain, and otherwise the
position of a maximal-x valid node offset 500 plane-units to the right at the
same y. -/
theorem C4_placement_algorithm :
    ∀ nodes : List Json,
      (nodes = [] → calculateNewNodePosition nodes = (0, 0)) ∧
      (nodes.filter (fun n => (nodePos n).isSome) = [] →
        calculateNewNodePosition nodes = (0, 0)) ∧
      (∀ v vs, nodes.filter (fun n => (nodePos n).isSome) = v :: vs →
        ∃ r ∈ v :: vs, (∀ m ∈ v :: vs, posX m ≤ posX r) ∧
          calculateNewNodePosition nodes = (rAdd (posX r) 500, posY r)) := by
  intro nodes
  refine ⟨?_, ?_, ?_⟩
  · rintro rfl
    simp [calculateNewNodePosition]
  · intro hf
    cases hn : nodes with
    | nil => simp [calculateNewNodePosition]
    | cons a t =>
      rw [hn] at hf
      simp only [calculateNewNodePosition, List.isEmpty_cons, hf]
      rfl
  · intro v vs hf
    have hne : nodes.isEmpty = false := by
      cases nodes with
      | nil => simp at hf
      | cons a t => rfl
    have hvv : pickRight v v = v := by
      unfold pickRight
      rw [if_neg (lt_irrefl _)]
    have hfold : (v :: vs).foldl pickRight v = vs.foldl pickRight v := by
      simp only [List.foldl_cons, hvv]
    obtain ⟨hMem, hBd⟩ := foldl_pickRight_spec vs v
    refine ⟨vs.foldl pickRight v, hMem, hBd, ?_⟩
    simp only [calculateNewNodePosition, hne, Bool.false_eq_true, if_false, hf, hfold]
    rfl

/-- C5 — Parse resilience: empty, whitespace-only, or too-short canvas text
is replaced by the empty document, a failed parse is recovered as the empty
document rather than an error, a successful decode is handed to the
defaulting step, and a decoded object lacking a `nodes` (or `edges`) key gets
the empty collection; concretely `""`, `" "` and non-JSON text all load as
`{nodes: [], edges: []}`. -/
theorem C5_parse_resilience :
    (∀ raw : List Char, (trimL raw).length < 2 → loadCanvas raw = ⟨[], []⟩) ∧
    (∀ raw : List Char, jsonParse raw = none → loadCanvas raw = ⟨[], []⟩) ∧
    (∀ (raw : List Char) (j : Json), ¬ (trimL raw).length < 2 → jsonParse raw = some j →
       loadCanvas raw = canvasFromJson j) ∧
    (∀ fields : List (List Char × Json), (∀ kv ∈ fields, kv.1 ≠ strL "nodes") →
       (canvasFromJson (.obj fields)).nodes = []) ∧
    (∀ fields : List (List Char × Json), (∀ kv ∈ fields, kv.1 ≠ strL "edges") →
       (canvasFromJson (.obj fields)).edges = []) ∧
    loadCanvas (strL "") = ⟨[], []⟩ ∧
    loadCanvas (strL " ") = ⟨[], []⟩ ∧
    loadCanvas (strL "this is not a canvas") = ⟨[], []⟩ := by
  have hshort : ∀ raw : List Char, (trimL raw).length < 2 → loadCanvas raw = ⟨[], []⟩ := by
    intro raw h
    simp only [loadCanvas]
    rw [if_pos h]
    rfl
  refine ⟨hshort, ?_, ?_, ?_, ?_, hshort _ (by decide), hshort _ (by decide), ?_⟩
  · intro raw h
    by_cases hlt : (trimL raw).length < 2
    · exact hshort raw hlt
    · simp only [loadCanvas]
      rw [if_neg hlt, h]
  · intro raw j hlt h
    simp only [loadCanvas]
    rw [if_neg hlt, h]
  · intro fields h
    have hfind : fields.reverse.find? (fun p => p.1 = strL "nodes") = none := by
      rw [List.find?_eq_none]
      intro x hx
      simp only [decide_eq_true_eq]
      exact h x (List.mem_reverse.mp hx)
    simp [canvasFromJson, Json.field, hfind]
  · intro fields h
    have hfind : fields.reverse.find? (fun p => p.1 = strL "edges") = none := by
      rw [List.find?_eq_none]
      intro x hx
      simp only [decide_eq_true_eq]
      exact h x (List.mem_reverse.mp hx)
    simp [canvasFromJson, Json.field, hfind]
  · show loadCanvas (strL "this is not a canvas") = ⟨[], []⟩
    have h : jsonParse (strL "this is not a canvas") = none := by
      rw [show jsonParse (strL "this is not a canvas") = none from rfl]
    by_cases hlt : (trimL (strL "this is not a canvas")).length < 2
    · exact hshort _ hlt
    · simp only [loadCanvas]
      rw [if_neg hlt, h]

/-- Settings with the link/embed timestamp suffix switched on (other fields
at their defaults). -/
def settingsTsOn : SendToCanvasSettings :=
  { DEFAULT_SETTINGS with appendTimestampToLinks := true }

/-- C6 — Reference formatting: a link node's text is exactly
`[[basename#^anchorId]]`, an embed node's exactly `![[basename#^anchorId]]`,
plain content passes through unchanged (never receiving a timestamp); with
the timestamp feature enabled, link and embed text receives a single space
and the formatted timestamp; concretely embedding basename `Notes` with
anchor `abc123` yields `![[Notes#^abc123]]`, and with timestamp
`2025-03-08T08:07` yields `![[Notes#^abc123]] 2025-03-08T08:07`. -/
theorem C6_reference_formatting :
    (∀ (s : SendToCanvasSettings) (c b id now : List Char),
       s.appendTimestampToLinks = false →
       formatNodeText s .link c b id now = strL "[[" ++ b ++ strL "#^" ++ id ++ strL "]]") ∧
    (∀ (s : SendToCanvasSettings) (c b id now : List Char),
       s.appendTimestampToLinks = false →
       formatNodeText s .embed c b id now = strL "![[" ++ b ++ strL "#^" ++ id ++ strL "]]") ∧
    (∀ (s : SendToCanvasSettings) (c b id now : List Char),
       s.appendTimestampToLinks = true →
       formatNodeText s .link c b id now =
         (strL "[[" ++ b ++ strL "#^" ++ id ++ strL "]]") ++ ' ' :: now) ∧
    (∀ (s : SendToCanvasSettings) (c b id now : List Char),
       s.appendTimestampToLinks = true →
       formatNodeText s .embed c b id now =
         (strL "![[" ++ b ++ strL "#^" ++ id ++ strL "]]") ++ ' ' :: now) ∧
    (∀ (s : SendToCanvasSettings) (c b id now : List Char),
       formatNodeText s .plain c b id now = c) ∧
    formatNodeText DEFAULT_SETTINGS .embed (strL "ignored") (strL "Notes") (strL "abc123")
        (strL "2025-03-08T08:07") = strL "![[Notes#^abc123]]" ∧
    formatNodeText settingsTsOn .embed (strL "ignored") (strL "Notes") (strL "abc123")
        (strL "2025-03-08T08:07") = strL "![[Notes#^abc123]] 2025-03-08T08:07" := by
  refine ⟨?_, ?_, ?_, ?_, ?_, by decide, by decide⟩
  · intro s c b id now h
    simp [formatNodeText, h, show strL "[[" = ['[', '['] from rfl,
      show strL "#^" = ['#', '^'] from rfl]
  · intro s c b id now h
    simp [formatNodeText, h, show strL "![[" = ['!', '[', '['] from rfl,
      show strL "#^" = ['#', '^'] from rfl]
  · intro s c b id now h
    simp [formatNodeText, h, show strL "[[" = ['[', '['] from rfl,
      show strL "#^" = ['#', '^'] from rfl]
  · intro s c b id now h
    simp [formatNodeText, h, show strL "![[" = ['!', '[', '['] from rfl,
      show strL "#^" = ['#', '^'] from rfl]
  · intro s c b id now
    rfl

/-- The `x` field of every node in a canvas text, in order. -/
def nodeXValues (raw : List Char) : List (Option Rat) :=
  (loadCanvas raw).nodes.map (fun n =>
    match n.field (strL "x") with
    | some (.num q) => some q
    | _ => none)

/-- The canvas text after one `addToCanvas` append to an initially empty
canvas file. -/
def twoAppendStep1 : List Char :=
  addToCanvasStep DEFAULT_SETTINGS .plain (strL "hello") (strL "Note") [] [] (strL "node-aaa") (strL "")

/-- The canvas text after a second `addToCanvas` append. -/
def twoAppendStep2 : List Char :=
  addToCanvasStep DEFAULT_SETTINGS .plain (strL "world") (strL "Note") [] [] (strL "node-bbb") twoAppendStep1

/-- C3 (code bug) — Placement is not monotone: appending twice to an
initially empty canvas places the first node at x = 0 as claimed, but the
second node also lands at x = 0 instead of strictly to the right:
`calculateNewNodePosition` reads `node.position.x` while `addToCanvas`
writes top-level `x`/`y` fields, so every node the plugin itself appended is
filtered out as position-less and the fallback origin is returned. -/
theorem C3_placement_not_monotone :
    nodeXValues twoAppendStep1 = [some 0] ∧
    nodeXValues twoAppendStep2 = [some 0, some 0] ∧
    ¬ ∃ a b : Rat, nodeXValues twoAppendStep2 = [some a, some b] ∧ a < b := by
  refine ⟨by decide, by decide, ?_⟩
  rintro ⟨a, b, h, hlt⟩
  have h2 : nodeXValues twoAppendStep2 = [some 0, some 0] := by decide
  rw [h2] at h
  obtain ⟨ha, hb⟩ : (0 : Rat) = a ∧ (0 : Rat) = b := by
    constructor
    · exact Option.some.inj (List.cons.inj h).1
    · exact Option.some.inj (List.cons.inj (List.cons.inj h).2).1
  rw [← ha, ← hb] at hlt
  exact lt_irrefl 0 hlt

theorem getD_mem {α : Type} {ls : List α} {i : Nat} {d : α} (h : i < ls.length) :
    ls.getD i d ∈ ls := by
  induction ls generalizing i with
  | nil => simp at h
  | cons a t ih =>
    cases i with
    | zero => simp
    | succ j =>
      simp only [List.getD_cons_succ]
      exact List.mem_cons_of_mem a (ih (Nat.lt_of_succ_lt_succ h))

/-- C1 (counterexample) — Anchoring is not idempotent.  First failure mode,
`createBlockReference` on a fragment that is present in the document but
spans two lines: the first call anchors the first line (located by the
multi-line fallback pass), after which no pass can relocate the fragment, so
the second call returns the empty id instead of the same one.  Second failure
mode, `addBlockIdToSelection` with the open-task append enabled on the
single-line fragment `"a\t"` of `"za\n- [ ] x a\t"`: the first call anchors
line 1, but its `trimEnd` eats the tab and destroys the occurrence, so the
second call's trimmed-substring pass relocates to line 0 and writes a
different anchor there — a different id and a second mutation. -/
theorem C1_cex_not_idempotent :
    (createBlockReference (strL "alpha\nbeta") (strL "alpha\nbeta") (strL "abc123") =
      (strL "alpha ^abc123\nbeta", strL "abc123") ∧
     createBlockReference (strL "alpha ^abc123\nbeta") (strL "alpha\nbeta") (strL "xyz789") =
      (strL "alpha ^abc123\nbeta", []) ∧
     strL "abc123" ≠ ([] : List Char)) ∧
    ((∃ l ∈ splitNl (strL "za\n- [ ] x a\t"), containsSub (strL "a\t") l = true) ∧
     addBlockIdToSelection settingsTasksOn (strL "za\n- [ ] x a\t") (strL "a\t") 0
        (strL "abc123") =
      (strL "za\n- [ ] x a [l:: #Canvas ] ^abc123", strL "abc123") ∧
     addBlockIdToSelection settingsTasksOn (strL "za\n- [ ] x a [l:: #Canvas ] ^abc123")
        (strL "a\t") 0 (strL "xyz789") =
      (strL "za ^xyz789\n- [ ] x a [l:: #Canvas ] ^abc123", strL "xyz789") ∧
     strL "xyz789" ≠ strL "abc123") := by
  exact ⟨⟨by decide, by decide, by decide⟩, by decide, by decide, by decide, by decide⟩

/-- Idempotence of `createBlockReference` for single-line fragments: when the
fragment occurs as a contiguous substring of some line of the document (so
the exact-substring pass locates it) and the generated id is a nonempty
string over `[a-zA-Z0-9-]` (as `generateBlockId` always produces), requesting
an anchor twice yields the same id both times and the second call performs no
mutation of the document text. -/
theorem createBlockReference_single_line_idem :
    ∀ (doc frag id1 id2 : List Char),
      (∃ l ∈ splitNl doc, containsSub frag l = true) →
      id1 ≠ [] →
      (∀ c ∈ id1, anchorChar c = true) →
      (createBlockReference (createBlockReference doc frag id1).1 frag id2).2 =
        (createBlockReference doc frag id1).2 ∧
      (createBlockReference (createBlockReference doc frag id1).1 frag id2).1 =
        (createBlockReference doc frag id1).1 := by
  intro doc frag id1 id2 hex hne hcls
  have hsome : (scanGen (fun l => idxOf frag l) (splitNl doc)).isSome = true := by
    apply scanGen_isSome_iff.mpr
    obtain ⟨l, hl, hc⟩ := hex
    exact ⟨l, hl, hc⟩
  obtain ⟨⟨i, k⟩, hscan⟩ := Option.isSome_iff_exists.mp hsome
  have hscan' : scanIdx frag (splitNl doc) = some (i, k) := hscan
  have hfind : findTextPosition doc frag = some (i, k) := by
    simp [findTextPosition, hscan']
  have hi : i < (splitNl doc).length := scanGen_lt hscan
  cases hanch : lastAnchorId ((splitNl doc).getD i []) with
  | some ex =>
    simp only [List.getD_eq_getElem?_getD] at hanch
    have h1 : createBlockReference doc frag id1 = (doc, ex) := by
      simp [createBlockReference, hfind, hanch]
    have h2 : createBlockReference doc frag id2 = (doc, ex) := by
      simp [createBlockReference, hfind, hanch]
    rw [h1]
    simp [h2]
  | none =>
    have hanchN := hanch
    simp only [List.getD_eq_getElem?_getD] at hanchN
    have h1 : createBlockReference doc frag id1 =
        (joinNl ((splitNl doc).set i ((splitNl doc).getD i [] ++ ' ' :: '^' :: id1)), id1) := by
      simp [createBlockReference, hfind, hanchN]
    have hnl_id : nlChar ∉ id1 := by
      intro hmem
      exact absurd (hcls nlChar hmem) (by decide)
    have hpieces : ∀ l ∈ (splitNl doc).set i ((splitNl doc).getD i [] ++ ' ' :: '^' :: id1),
        nlChar ∉ l := by
      intro l hl
      rcases mem_set_cases hl with rfl | hl
      · intro hmem
        rcases List.mem_append.mp hmem with h' | h'
        · exact not_nl_mem_splitNl (getD_mem hi) h'
        · rcases List.mem_cons.mp h' with h'' | h''
          · exact absurd h'' (by decide)
          · rcases List.mem_cons.mp h'' with h3 | h3
            · exact absurd h3 (by decide)
            · exact hnl_id h3
      · exact not_nl_mem_splitNl hl
    have hset_ne : (splitNl doc).set i ((splitNl doc).getD i [] ++ ' ' :: '^' :: id1) ≠ [] := by
      intro hh
      have hlen := congrArg List.length hh
      simp only [List.length_set, List.length_nil] at hlen
      exact (splitNl_ne_nil doc) (List.length_eq_zero.mp hlen)
    have hsplit :
        splitNl (joinNl ((splitNl doc).set i ((splitNl doc).getD i [] ++ ' ' :: '^' :: id1))) =
          (splitNl doc).set i ((splitNl doc).getD i [] ++ ' ' :: '^' :: id1) :=
      splitNl_joinNl hset_ne hpieces
    have hget : idxOf frag ((splitNl doc).getD i []) = some k := scanGen_getD hscan
    have hsome2 :
        (idxOf frag ((splitNl doc).getD i [] ++ ' ' :: '^' :: id1)).isSome = true :=
      idxOf_isSome_app _ (by rw [hget]; rfl)
    obtain ⟨k', hk'⟩ := Option.isSome_iff_exists.mp hsome2
    have hscan2 : scanIdx frag
        ((splitNl doc).set i ((splitNl doc).getD i [] ++ ' ' :: '^' :: id1)) = some (i, k') :=
      scanGen_set hscan hk'
    have hsplitN := hsplit
    have hscan2N := hscan2
    simp only [List.getD_eq_getElem?_getD] at hsplitN hscan2N
    have hfind2 : findTextPosition
        (joinNl ((splitNl doc).set i ((splitNl doc).getD i [] ++ ' ' :: '^' :: id1))) frag =
          some (i, k') := by
      simp [findTextPosition, hsplitN, hscan2N]
    have hgetD2 : ((splitNl doc).set i ((splitNl doc).getD i [] ++ ' ' :: '^' :: id1)).getD i [] =
        (splitNl doc).getD i [] ++ ' ' :: '^' :: id1 :=
      getD_set_self hi
    have hanch2 : lastAnchorId ((splitNl doc).getD i [] ++ ' ' :: '^' :: id1) = some id1 := by
      have h0 := lastAnchorId_trailing ((splitNl doc).getD i [] ++ [' ']) hne hcls
      simpa [List.append_assoc] using h0
    have hgetD2N := hgetD2
    have hanch2N := hanch2
    have hfind2N := hfind2
    simp only [List.getD_eq_getElem?_getD] at hgetD2N hanch2N hfind2N
    have h2 : createBlockReference
        (joinNl ((splitNl doc).set i ((splitNl doc).getD i [] ++ ' ' :: '^' :: id1))) frag id2 =
        (joinNl ((splitNl doc).set i ((splitNl doc).getD i [] ++ ' ' :: '^' :: id1)), id1) := by
      simp [createBlockReference, hfind2N, hsplitN, hgetD2N, hanch2N]
    have h2N := h2
    simp only [List.getD_eq_getElem?_getD] at h2N
    rw [h1]
    simp [h2N]

theorem findTextPosition_lt {c t : List Char} {i k : Nat}
    (h : findTextPosition c t = some (i, k)) : i < (splitNl c).length := by
  simp only [findTextPosition] at h
  split at h
  · cases h
    exact scanGen_lt (by assumption)
  · split at h
    · cases h
      exact scanGen_lt (by assumption)
    · split at h
      · cases h
        rename_i heq
        split at heq
        · exact scanGen_lt heq
        · cases heq
      · split at h
        · cases h
          rename_i heq
          split at heq
          · exact scanGen_lt heq
          · cases heq
        · exact scanGen_lt h

theorem mem_trimEndL {c : Char} {x : List Char} (h : c ∈ trimEndL x) : c ∈ x := by
  simp only [trimEndL, List.mem_reverse] at h
  exact List.mem_reverse.mp ((List.dropWhile_sublist _).subset h)

theorem appendTask_not_nl {s : SendToCanvasSettings} {x : List Char} (m : Bool)
    (hx : nlChar ∉ x) (ha : nlChar ∉ s.openTaskAppendText) :
    nlChar ∉ appendTextToOpenTask s x m := by
  unfold appendTextToOpenTask
  split
  · exact hx
  · split
    · split
      · intro hmem
        rcases List.mem_append.mp hmem with h' | h'
        · exact hx (mem_trimEndL h')
        · rcases List.mem_cons.mp h' with h'' | h''
          · exact absurd h'' (by decide)
          · exact ha h''
      · exact hx
    · exact hx

/-- C8 — Anchoring frame effect: when an anchor is created for a located
fragment (position found, no existing anchor on the located line), exactly
the located line of the source document changes — it becomes the open-task
processed line with ` ^<id>` appended — and every other line of the
written-back text is preserved byte for byte. -/
theorem C8_anchoring_frame_effect :
    ∀ (s : SendToCanvasSettings) (doc content : List Char) (cursorLine : Nat)
      (newId : List Char) (i k : Nat),
      findTextPosition doc content = some (i, k) →
      lastAnchorId ((splitNl doc).getD i []) = none →
      (∀ c ∈ newId, c ≠ nlChar) →
      (∀ c ∈ s.openTaskAppendText, c ≠ nlChar) →
      splitNl (addBlockIdToSelection s doc content cursorLine newId).1 =
        (splitNl doc).set i
          (appendTextToOpenTask s ((splitNl doc).getD i []) true ++ ' ' :: '^' :: newId) ∧
      ∀ j, j ≠ i →
        (splitNl (addBlockIdToSelection s doc content cursorLine newId).1).getD j [] =
          (splitNl doc).getD j [] := by
  intro s doc content cursorLine newId i k hfind hanch hid happ
  have hi : i < (splitNl doc).length := findTextPosition_lt hfind
  have hanchN := hanch
  simp only [List.getD_eq_getElem?_getD] at hanchN
  have hres : (addBlockIdToSelection s doc content cursorLine newId).1 =
      joinNl ((splitNl doc).set i
        (appendTextToOpenTask s ((splitNl doc).getD i []) true ++ ' ' :: '^' :: newId)) := by
    simp [addBlockIdToSelection, hfind, hanchN, List.getD_eq_getElem?_getD]
  have hid' : nlChar ∉ newId := fun hmem => (hid nlChar hmem) rfl
  have happ' : nlChar ∉ s.openTaskAppendText := fun hmem => (happ nlChar hmem) rfl
  have hline : nlChar ∉ (splitNl doc).getD i [] := not_nl_mem_splitNl (getD_mem hi)
  have hpieces : ∀ l ∈ (splitNl doc).set i
      (appendTextToOpenTask s ((splitNl doc).getD i []) true ++ ' ' :: '^' :: newId),
      nlChar ∉ l := by
    intro l hl
    rcases mem_set_cases hl with rfl | hl
    · intro hmem
      rcases List.mem_append.mp hmem with h' | h'
      · exact appendTask_not_nl true hline happ' h'
      · rcases List.mem_cons.mp h' with h'' | h''
        · exact absurd h'' (by decide)
        · rcases List.mem_cons.mp h'' with h3 | h3
          · exact absurd h3 (by decide)
          · exact hid' h3
    · exact not_nl_mem_splitNl hl
  have hset_ne : (splitNl doc).set i
      (appendTextToOpenTask s ((splitNl doc).getD i []) true ++ ' ' :: '^' :: newId) ≠ [] := by
    intro hh
    have hlen := congrArg List.length hh
    simp only [List.length_set, List.length_nil] at hlen
    exact (splitNl_ne_nil doc) (List.length_eq_zero.mp hlen)
  have hsplit := splitNl_joinNl hset_ne hpieces
  constructor
  · rw [hres, hsplit]
  · intro j hj
    rw [hres, hsplit]
    exact getD_set_ne hj

/-- The `text` field of every node in a canvas text, in order. -/
def nodeTextValues (raw : List Char) : List (Option (List Char)) :=
  (loadCanvas raw).nodes.map (fun n =>
    match n.field (strL "text") with
    | some (.str t) => some t
    | _ => none)

/-- A link send whose fragment cannot be located and whose cursor sits on a
whitespace-only line: anchor generation fails with the empty id, yet the
canvas append still runs. -/
def c9NoAnchorSend : Option (List Char × List Char × List Char) :=
  sendSelectionPipeline DEFAULT_SETTINGS .link (strL " \nxyz") (strL "qq") 0
    (strL "Note") (strL "abc123") (strL "node-aaa") (strL "ts") (strL "")

/-- C9 (counterexample) — With the cursor on the non-empty (whitespace-only)
line `" "` and an unlocatable fragment, `addBlockIdToSelection` returns the
empty id without touching the document (the claim promises an appended anchor
for a non-empty line), and the caller does not abort: a canvas node carrying
the empty-anchor reference `[[Note#^]]` is still created. -/
theorem C9_cex_empty_anchor_still_sends :
    strL " " ≠ ([] : List Char) ∧
    c9NoAnchorSend.map (fun r => (r.1, r.2.1)) = some (strL " \nxyz", []) ∧
    c9NoAnchorSend.map (fun r => nodeTextValues r.2.2) = some [some (strL "[[Note#^]]")] := by
  exact ⟨by decide, by decide, by decide⟩

/-- A link send from a document whose cursor line is truly empty. -/
def c9BlankLineSend : Option (List Char × List Char × List Char) :=
  sendSelectionPipeline DEFAULT_SETTINGS .link (strL "\nxyz") (strL "qq") 0
    (strL "Note") (strL "abc123") (strL "node-bbb") (strL "ts") (strL "")

/-- C9 (amended) — Anchor-generation failure semantics as implemented: when
no pass and no fallback locates the fragment, a cursor line with non-blank
content gets the anchor appended (after open-task processing) and the new id
is returned; a blank (empty or whitespace-only) cursor line yields the empty
id with the document untouched; and the caller does not treat the empty id as
an abort — the canvas append still runs, producing a node whose link text
carries an empty anchor, `[[basename#^]]`. -/
theorem C9_failure_semantics_amended :
    (∀ (s : SendToCanvasSettings) (doc content : List Char) (cursorLine : Nat)
        (newId : List Char),
       findTextPosition doc content = none →
       content ≠ (splitNl doc).getD cursorLine [] →
       scanTrimEq (trimL content) (splitNl doc) = none →
       (trimL ((splitNl doc).getD cursorLine [])).isEmpty = true →
       addBlockIdToSelection s doc content cursorLine newId = (doc, [])) ∧
    (∀ (s : SendToCanvasSettings) (doc content : List Char) (cursorLine : Nat)
        (newId : List Char),
       findTextPosition doc content = none →
       content ≠ (splitNl doc).getD cursorLine [] →
       scanTrimEq (trimL content) (splitNl doc) = none →
       (trimL ((splitNl doc).getD cursorLine [])).isEmpty = false →
       addBlockIdToSelection s doc content cursorLine newId =
         (joinNl ((splitNl doc).set cursorLine
            (appendTextToOpenTask s ((splitNl doc).getD cursorLine []) true ++
              ' ' :: '^' :: newId)), newId)) ∧
    (∀ (s : SendToCanvasSettings) (c b now : List Char),
       s.appendTimestampToLinks = false →
       formatNodeText s .link c b [] now = strL "[[" ++ b ++ strL "#^]]") ∧
    c9BlankLineSend.map (fun r => (r.1, r.2.1)) = some (strL "\nxyz", []) ∧
    c9BlankLineSend.map (fun r => nodeTextValues r.2.2) = some [some (strL "[[Note#^]]")] := by
  refine ⟨?_, ?_, ?_, by decide, by decide⟩
  · intro s doc content cursorLine newId h1 h2 h3 h4
    simp only [List.getD_eq_getElem?_getD] at h2 h4
    simp [addBlockIdToSelection, h1, h2, h3, h4]
  · intro s doc content cursorLine newId h1 h2 h3 h4
    have hne : (splitNl doc).getD cursorLine [] ≠ [] := by
      intro hh
      rw [hh] at h4
      simp [trimL, trimStartL, trimEndL] at h4
    have hie : ((splitNl doc).getD cursorLine []).isEmpty = false := by
      cases he : (splitNl doc).getD cursorLine [] with
      | nil => exact absurd he hne
      | cons a t => rfl
    simp only [List.getD_eq_getElem?_getD] at h2 h4 hie
    simp [addBlockIdToSelection, h1, h2, h3, h4, hie]
  · intro s c b now h
    simp [formatNodeText, h, show strL "[[" = ['[', '['] from rfl,
      show strL "#^]]" = ['#', '^', ']', ']'] from rfl,
      show strL "]]" = [']', ']'] from rfl]

/-- C10 — Anchor detection needs no separating space: whenever the located
line ends in a caret followed by one or more characters of `[a-zA-Z0-9-]`
(for example a line ending in `mc^2`), anchor creation returns that trailing
token as the existing anchor id and performs no mutation. -/
theorem C10_trailing_anchor_without_space :
    ∀ (doc frag newId pre run : List Char) (i k : Nat),
      findTextPosition doc frag = some (i, k) →
      (splitNl doc).getD i [] = pre ++ '^' :: run →
      run ≠ [] →
      (∀ c ∈ run, anchorChar c = true) →
      createBlockReference doc frag newId = (doc, run) := by
  intro doc frag newId pre run i k hfind hline hne hcls
  have hanch : lastAnchorId ((splitNl doc).getD i []) = some run := by
    rw [hline]
    exact lastAnchorId_trailing pre hne hcls
  simp only [List.getD_eq_getElem?_getD] at hanch
  simp [createBlockReference, hfind, hanch]

/-- Witness for C2: the open-task pass locates a fragment the first two
passes miss (extra spaces after the marker). -/
theorem C2_locator_cascade_witness :
    (scanIdx (strL "- [ ]   Buy") (splitNl (strL "- [ ] Buy milk")) = none ∧
     scanIdx (trimL (strL "- [ ]   Buy")) (splitNl (strL "- [ ] Buy milk")) = none ∧
     leadsWith taskMarker (trimL (strL "- [ ]   Buy")) = true ∧
     scanTask (trimL ((trimL (strL "- [ ]   Buy")).drop taskMarker.length))
       (splitNl (strL "- [ ] Buy milk")) = some (0, 0)) ∧
    findTextPosition (strL "- [ ] Buy milk") (strL "- [ ]   Buy") = some (0, 0) :=
  ⟨⟨by decide, by decide, by decide, by decide⟩,
   C2_locator_cascade.2.2.1 (strL "- [ ] Buy milk") (strL "- [ ]   Buy") (0, 0)
     (by decide) (by decide) (by decide) (by decide)⟩

/-- A canvas node with a well-formed nested position at (1, 2). -/
def c4NodeA : Json :=
  .obj [(strL "id", .str (strL "a")),
        (strL "position", .obj [(strL "x", .num 1), (strL "y", .num 2)])]

/-- A canvas node with a well-formed nested position at (7, 5). -/
def c4NodeB : Json :=
  .obj [(strL "id", .str (strL "b")),
        (strL "position", .obj [(strL "x", .num 7), (strL "y", .num 5)])]

/-- A canvas node without any position member. -/
def c4NodeC : Json := .obj [(strL "id", .str (strL "c"))]

/-- Witness for C4: among two valid nodes and one position-less node, the new
node is placed 500 to the right of the rightmost valid node. -/
theorem C4_placement_algorithm_witness :
    ∃ r ∈ [c4NodeA, c4NodeB], (∀ m ∈ [c4NodeA, c4NodeB], posX m ≤ posX r) ∧
      calculateNewNodePosition [c4NodeA, c4NodeB, c4NodeC] = (rAdd (posX r) 500, posY r) :=
  (C4_placement_algorithm [c4NodeA, c4NodeB, c4NodeC]).2.2 c4NodeA [c4NodeB] rfl

/-- Witness for C5: the empty canvas text is below the length threshold and
loads as the empty document. -/
theorem C5_parse_resilience_witness :
    (trimL (strL "")).length < 2 ∧ loadCanvas (strL "") = ⟨[], []⟩ :=
  ⟨by decide, C5_parse_resilience.1 (strL "") (by decide)⟩

/-- Witness for C6: the embed format at concrete inputs with the timestamp
feature off. -/
theorem C6_reference_formatting_witness :
    DEFAULT_SETTINGS.appendTimestampToLinks = false ∧
    formatNodeText DEFAULT_SETTINGS .embed (strL "c") (strL "Notes") (strL "abc123")
        (strL "now") =
      strL "![[" ++ strL "Notes" ++ strL "#^" ++ strL "abc123" ++ strL "]]" :=
  ⟨rfl,
   C6_reference_formatting.2.1 DEFAULT_SETTINGS (strL "c") (strL "Notes") (strL "abc123")
     (strL "now") rfl⟩

/-- Witness for C7: the enabled-and-task clause applied to `"- [ ] Task"`. -/
theorem C7_open_task_append_idempotent_witness :
    (settingsTasksOn.appendTextToOpenTasks = true ∧
     leadsWith taskMarker (trimL (strL "- [ ] Task")) = true) ∧
    (appendTextToOpenTask settingsTasksOn
        (appendTextToOpenTask settingsTasksOn (strL "- [ ] Task") true) true =
      appendTextToOpenTask settingsTasksOn (strL "- [ ] Task") true ∧
     containsSub settingsTasksOn.openTaskAppendText
        (appendTextToOpenTask settingsTasksOn (strL "- [ ] Task") true) = true) :=
  ⟨⟨rfl, by decide⟩,
   C7_open_task_append_idempotent.1 settingsTasksOn (strL "- [ ] Task") rfl (by decide)⟩

/-- Witness for C8: anchoring the task line of a two-line note mutates only
line 0. -/
theorem C8_anchoring_frame_effect_witness :
    (findTextPosition (strL "- [ ] Task\nother") (strL "- [ ] Task") = some (0, 0) ∧
     lastAnchorId ((splitNl (strL "- [ ] Task\nother")).getD 0 []) = none) ∧
    (splitNl (addBlockIdToSelection settingsTasksOn (strL "- [ ] Task\nother")
        (strL "- [ ] Task") 0 (strL "abc123")).1 =
      (splitNl (strL "- [ ] Task\nother")).set 0
        (appendTextToOpenTask settingsTasksOn
          ((splitNl (strL "- [ ] Task\nother")).getD 0 []) true ++
            ' ' :: '^' :: strL "abc123") ∧
     ∀ j, j ≠ 0 →
       (splitNl (addBlockIdToSelection settingsTasksOn (strL "- [ ] Task\nother")
           (strL "- [ ] Task") 0 (strL "abc123")).1).getD j [] =
         (splitNl (strL "- [ ] Task\nother")).getD j []) :=
  ⟨⟨by decide, by decide⟩,
   C8_anchoring_frame_effect settingsTasksOn (strL "- [ ] Task\nother") (strL "- [ ] Task")
     0 (strL "abc123") 0 0 (by decide) (by decide) (by decide) (by decide)⟩

/-- Witness for C9: the blank-cursor-line clause applied to concrete
inputs. -/
theorem C9_failure_semantics_amended_witness :
    (findTextPosition (strL " \nxyz") (strL "qq") = none ∧
     (trimL ((splitNl (strL " \nxyz")).getD 0 [])).isEmpty = true) ∧
    addBlockIdToSelection DEFAULT_SETTINGS (strL " \nxyz") (strL "qq") 0 (strL "abc123") =
      (strL " \nxyz", []) :=
  ⟨⟨by decide, by decide⟩,
   C9_failure_semantics_amended.1 DEFAULT_SETTINGS (strL " \nxyz") (strL "qq") 0
     (strL "abc123") (by decide) (by decide) (by decide) (by decide)⟩

/-- Witness for C10: the line `E=mc^2` is treated as already anchored with id
`2`, and nothing is written. -/
theorem C10_trailing_anchor_without_space_witness :
    (findTextPosition (strL "E=mc^2") (strL "E=mc^2") = some (0, 0) ∧
     (splitNl (strL "E=mc^2")).getD 0 [] = strL "E=mc" ++ '^' :: strL "2") ∧
    createBlockReference (strL "E=mc^2") (strL "E=mc^2") (strL "qq") =
      (strL "E=mc^2", strL "2") :=
  ⟨⟨by decide, by decide⟩,
   C10_trailing_anchor_without_space (strL "E=mc^2") (strL "E=mc^2") (strL "qq")
     (strL "E=mc") (strL "2") 0 0 (by decide) (by decide) (by decide) (by decide)⟩

theorem appendTask_of_disabled (s : SendToCanvasSettings) (x : List Char) (m : Bool)
    (h : s.appendTextToOpenTasks = false) : appendTextToOpenTask s x m = x := by
  simp [appendTextToOpenTask, h]

/-- C1 (amended) — Idempotent anchoring, for both `createBlockReference` and
`addBlockIdToSelection`: if the located line already ends with an anchor
token, both functions return the existing id and leave the document
unchanged; for a fragment occurring as a contiguous substring of a single
line (so the exact-substring pass locates it) and a generated id that is a
nonempty `[a-zA-Z0-9-]` string, `createBlockReference` is idempotent
unconditionally, and `addBlockIdToSelection` is idempotent provided the
open-task append leaves the located line unchanged — which it always does
when `appendTextToOpenTasks` is disabled (last clause). -/
theorem C1_anchoring_idempotent_amended :
    (∀ (doc frag newId : List Char) (i k : Nat) (ex : List Char),
       findTextPosition doc frag = some (i, k) →
       lastAnchorId ((splitNl doc).getD i []) = some ex →
       createBlockReference doc frag newId = (doc, ex) ∧
       ∀ (s : SendToCanvasSettings) (cur : Nat),
         addBlockIdToSelection s doc frag cur newId = (doc, ex)) ∧
    (∀ (doc frag id1 id2 : List Char),
       (∃ l ∈ splitNl doc, containsSub frag l = true) →
       id1 ≠ [] →
       (∀ c ∈ id1, anchorChar c = true) →
       (createBlockReference (createBlockReference doc frag id1).1 frag id2).2 =
         (createBlockReference doc frag id1).2 ∧
       (createBlockReference (createBlockReference doc frag id1).1 frag id2).1 =
         (createBlockReference doc frag id1).1) ∧
    (∀ (s : SendToCanvasSettings) (doc frag id1 id2 : List Char) (cur1 cur2 i k : Nat),
       scanIdx frag (splitNl doc) = some (i, k) →
       appendTextToOpenTask s ((splitNl doc).getD i []) true = (splitNl doc).getD i [] →
       id1 ≠ [] →
       (∀ c ∈ id1, anchorChar c = true) →
       (addBlockIdToSelection s (addBlockIdToSelection s doc frag cur1 id1).1 frag cur2 id2).2 =
         (addBlockIdToSelection s doc frag cur1 id1).2 ∧
       (addBlockIdToSelection s (addBlockIdToSelection s doc frag cur1 id1).1 frag cur2 id2).1 =
         (addBlockIdToSelection s doc frag cur1 id1).1) ∧
    (∀ (s : SendToCanvasSettings) (x : List Char) (m : Bool),
       s.appendTextToOpenTasks = false → appendTextToOpenTask s x m = x) := by
  refine ⟨?_, createBlockReference_single_line_idem, ?_, appendTask_of_disabled⟩
  · intro doc frag newId i k ex hfind hanch
    simp only [List.getD_eq_getElem?_getD] at hanch
    constructor
    · simp [createBlockReference, hfind, hanch]
    · intro s cur
      simp [addBlockIdToSelection, hfind, hanch]
  · intro s doc frag id1 id2 cur1 cur2 i k hscan happ hne hcls
    have hfind : findTextPosition doc frag = some (i, k) := by
      simp [findTextPosition, hscan]
    have hi : i < (splitNl doc).length := scanGen_lt hscan
    cases hanch : lastAnchorId ((splitNl doc).getD i []) with
    | some ex =>
      simp only [List.getD_eq_getElem?_getD] at hanch
      have h1 : addBlockIdToSelection s doc frag cur1 id1 = (doc, ex) := by
        simp [addBlockIdToSelection, hfind, hanch]
      have h2 : addBlockIdToSelection s doc frag cur2 id2 = (doc, ex) := by
        simp [addBlockIdToSelection, hfind, hanch]
      rw [h1]
      simp [h2]
    | none =>
      have hanchN := hanch
      have happN := happ
      simp only [List.getD_eq_getElem?_getD] at hanchN happN
      have h1 : addBlockIdToSelection s doc frag cur1 id1 =
          (joinNl ((splitNl doc).set i ((splitNl doc).getD i [] ++ ' ' :: '^' :: id1)), id1) := by
        simp [addBlockIdToSelection, hfind, hanchN, happN]
      have hnl_id : nlChar ∉ id1 := by
        intro hmem
        exact absurd (hcls nlChar hmem) (by decide)
      have hpieces : ∀ l ∈ (splitNl doc).set i ((splitNl doc).getD i [] ++ ' ' :: '^' :: id1),
          nlChar ∉ l := by
        intro l hl
        rcases mem_set_cases hl with rfl | hl
        · intro hmem
          rcases List.mem_append.mp hmem with h' | h'
          · exact not_nl_mem_splitNl (getD_mem hi) h'
          · rcases List.mem_cons.mp h' with h'' | h''
            · exact absurd h'' (by decide)
            · rcases List.mem_cons.mp h'' with h3 | h3
              · exact absurd h3 (by decide)
              · exact hnl_id h3
        · exact not_nl_mem_splitNl hl
      have hset_ne : (splitNl doc).set i ((splitNl doc).getD i [] ++ ' ' :: '^' :: id1) ≠ [] := by
        intro hh
        have hlen := congrArg List.length hh
        simp only [List.length_set, List.length_nil] at hlen
        exact (splitNl_ne_nil doc) (List.length_eq_zero.mp hlen)
      have hsplit :
          splitNl (joinNl ((splitNl doc).set i ((splitNl doc).getD i [] ++ ' ' :: '^' :: id1))) =
            (splitNl doc).set i ((splitNl doc).getD i [] ++ ' ' :: '^' :: id1) :=
        splitNl_joinNl hset_ne hpieces
      have hget : idxOf frag ((splitNl doc).getD i []) = some k := scanGen_getD hscan
      have hsome2 :
          (idxOf frag ((splitNl doc).getD i [] ++ ' ' :: '^' :: id1)).isSome = true :=
        idxOf_isSome_app _ (by rw [hget]; rfl)
      obtain ⟨k', hk'⟩ := Option.isSome_iff_exists.mp hsome2
      have hscan2 : scanIdx frag
          ((splitNl doc).set i ((splitNl doc).getD i [] ++ ' ' :: '^' :: id1)) = some (i, k') :=
        scanGen_set hscan hk'
      have hsplitN := hsplit
      have hscan2N := hscan2
      simp only [List.getD_eq_getElem?_getD] at hsplitN hscan2N
      have hfind2 : findTextPosition
          (joinNl ((splitNl doc).set i ((splitNl doc).getD i [] ++ ' ' :: '^' :: id1))) frag =
            some (i, k') := by
        simp [findTextPosition, hsplitN, hscan2N]
      have hgetD2 : ((splitNl doc).set i ((splitNl doc).getD i [] ++ ' ' :: '^' :: id1)).getD i [] =
          (splitNl doc).getD i [] ++ ' ' :: '^' :: id1 :=
        getD_set_self hi
      have hanch2 : lastAnchorId ((splitNl doc).getD i [] ++ ' ' :: '^' :: id1) = some id1 := by
        have h0 := lastAnchorId_trailing ((splitNl doc).getD i [] ++ [' ']) hne hcls
        simpa [List.append_assoc] using h0
      have hgetD2N := hgetD2
      have hanch2N := hanch2
      have hfind2N := hfind2
      simp only [List.getD_eq_getElem?_getD] at hgetD2N hanch2N hfind2N
      have h2 : addBlockIdToSelection s
          (joinNl ((splitNl doc).set i ((splitNl doc).getD i [] ++ ' ' :: '^' :: id1))) frag cur2 id2 =
          (joinNl ((splitNl doc).set i ((splitNl doc).getD i [] ++ ' ' :: '^' :: id1)), id1) := by
        simp [addBlockIdToSelection, hfind2N, hsplitN, hgetD2N, hanch2N]
      have h2N := h2
      simp only [List.getD_eq_getElem?_getD] at h2N
      rw [h1]
      simp [h2N]

/-- Witness for C1: with the open-task feature at its default (off), the
fragment `Buy` inside the first line of a two-line note is anchored twice —
from different cursor positions — yielding the same id and no second
mutation. -/
theorem C1_anchoring_idempotent_amended_witness :
    (scanIdx (strL "Buy") (splitNl (strL "- [ ] Buy milk\nnext")) = some (0, 6) ∧
     appendTextToOpenTask DEFAULT_SETTINGS
        ((splitNl (strL "- [ ] Buy milk\nnext")).getD 0 []) true =
       (splitNl (strL "- [ ] Buy milk\nnext")).getD 0 []) ∧
    ((addBlockIdToSelection DEFAULT_SETTINGS
        (addBlockIdToSelection DEFAULT_SETTINGS (strL "- [ ] Buy milk\nnext") (strL "Buy")
          0 (strL "abc123")).1 (strL "Buy") 1 (strL "zz")).2 =
      (addBlockIdToSelection DEFAULT_SETTINGS (strL "- [ ] Buy milk\nnext") (strL "Buy")
        0 (strL "abc123")).2 ∧
     (addBlockIdToSelection DEFAULT_SETTINGS
        (addBlockIdToSelection DEFAULT_SETTINGS (strL "- [ ] Buy milk\nnext") (strL "Buy")
          0 (strL "abc123")).1 (strL "Buy") 1 (strL "zz")).1 =
      (addBlockIdToSelection DEFAULT_SETTINGS (strL "- [ ] Buy milk\nnext") (strL "Buy")
        0 (strL "abc123")).1) :=
  ⟨⟨by decide, by decide⟩,
   C1_anchoring_idempotent_amended.2.2.1 DEFAULT_SETTINGS (strL "- [ ] Buy milk\nnext")
     (strL "Buy") (strL "abc123") (strL "zz") 0 1 0 6 (by decide) (by decide) (by decide)
     (by decide)⟩
